import Mathlib

/-!
Shallow embedding of the message-framing and encoding layer of
lsp-copilot (src/msg.rs), together with proofs of the specified
properties.

Modelling conventions:

- The byte stream is modelled as a `List Char`, the UTF-8 decoded view of
  the underlying byte stream.  Byte counts (`Content-Length`, `str::len`)
  are computed with `Char.utf8Size`, so they agree with the byte counts of
  the real stream.  A `Content-Length` that would cut a UTF-8 sequence in
  half maps to the same fatal InvalidData outcome that
  `String::from_utf8` produces in the source.  Streams that are not valid
  UTF-8 are outside the model; every successful read or write in the
  source involves only valid UTF-8 data.
- `serde_json::Value` is modelled by the inductive `Json`, with numbers
  restricted to integers (the protocol uses only `i32`/`usize` numbers;
  floating point is out of scope).  The serializer follows the compact
  `serde_json::to_string` format, the recursive-descent grammar of
  `serde_json::from_str` is modelled by a fueled value analyzer.
  Surrogate-pair escapes and number-from-sequence struct decoding are not
  modelled; no claim depends on them.
- The `#[derive(Serialize, Deserialize)]` codecs of msg.rs, together with
  their serde attributes (`untagged` ordered variant trial, implicit
  `None` default for missing `Option` fields, `skip_serializing_if`,
  `flatten`, `transparent`, unknown fields ignored), are written out as
  explicit `toJson` and `fromJson` functions.
- Writers are modelled as the list of events (`chunk` writes and `flush`)
  emitted to the sink; readers take the stream and return the result
  together with the unconsumed remainder of the stream.
- The bytecode transcoder (`crate::bytecode`, not part of this file) and
  the extraction error type (`crate::error::ExtractError`) are external
  to msg.rs; the transcoder is a quantified parameter, `ExtractError` is
  modelled from the spec.
-/

namespace LspCopilot

/-- Model of `serde_json::Value`, restricted to integer numbers. -/
inductive Json where
  | null : Json
  | bool (b : Bool) : Json
  | num (n : Int) : Json
  | str (s : String) : Json
  | arr (elems : List Json) : Json
  | obj (fields : List (String × Json)) : Json

mutual

/-- Structural boolean equality on `Json`. -/
def Json.beq : Json → Json → Bool
  | .null, .null => true
  | .bool a, .bool b => a == b
  | .num a, .num b => a == b
  | .str a, .str b => a == b
  | .arr a, .arr b => Json.beqList a b
  | .obj a, .obj b => Json.beqPairs a b
  | _, _ => false

def Json.beqList : List Json → List Json → Bool
  | [], [] => true
  | x :: xs, y :: ys => Json.beq x y && Json.beqList xs ys
  | _, _ => false

def Json.beqPairs : List (String × Json) → List (String × Json) → Bool
  | [], [] => true
  | (k, v) :: xs, (l, w) :: ys => k == l && Json.beq v w && Json.beqPairs xs ys
  | _, _ => false

end

mutual

def Json.eq_of_beq : ∀ {a b : Json}, Json.beq a b = true → a = b
  | .null, .null, _ => rfl
  | .bool _, .bool _, h => by simpa [Json.beq] using h
  | .num _, .num _, h => by simpa [Json.beq] using h
  | .str _, .str _, h => by simpa [Json.beq] using h
  | .arr _, .arr _, h => by
      simp only [Json.beq] at h
      exact congrArg Json.arr (Json.eqList_of_beqList h)
  | .obj _, .obj _, h => by
      simp only [Json.beq] at h
      exact congrArg Json.obj (Json.eqPairs_of_beqPairs h)

def Json.eqList_of_beqList : ∀ {a b : List Json}, Json.beqList a b = true → a = b
  | [], [], _ => rfl
  | x :: xs, y :: ys, h => by
      simp only [Json.beqList, Bool.and_eq_true] at h
      rw [Json.eq_of_beq h.1, Json.eqList_of_beqList h.2]

def Json.eqPairs_of_beqPairs :
    ∀ {a b : List (String × Json)}, Json.beqPairs a b = true → a = b
  | [], [], _ => rfl
  | (k, v) :: xs, (l, w) :: ys, h => by
      simp only [Json.beqPairs, Bool.and_eq_true] at h
      rw [show k = l by simpa using h.1.1, Json.eq_of_beq h.1.2,
        Json.eqPairs_of_beqPairs h.2]

end

mutual

def Json.beq_refl : ∀ a : Json, Json.beq a a = true
  | .null => rfl
  | .bool _ => by simp [Json.beq]
  | .num _ => by simp [Json.beq]
  | .str _ => by simp [Json.beq]
  | .arr a => by simp only [Json.beq]; exact Json.beqList_refl a
  | .obj a => by simp only [Json.beq]; exact Json.beqPairs_refl a

def Json.beqList_refl : ∀ a : List Json, Json.beqList a a = true
  | [] => rfl
  | x :: xs => by
      simp only [Json.beqList, Bool.and_eq_true]
      exact ⟨Json.beq_refl x, Json.beqList_refl xs⟩

def Json.beqPairs_refl : ∀ a : List (String × Json), Json.beqPairs a a = true
  | [] => rfl
  | (k, v) :: xs => by
      simp only [Json.beqPairs, Bool.and_eq_true]
      exact ⟨⟨by simp, Json.beq_refl v⟩, Json.beqPairs_refl xs⟩

end

instance : DecidableEq Json := fun a b =>
  if h : Json.beq a b = true then .isTrue (Json.eq_of_beq h)
  else .isFalse (fun he => h (he ▸ Json.beq_refl a))

/-- First-match field lookup in a JSON object field list, the access pattern
used by the serde map visitor for the structs in msg.rs. -/
def lookupField : List (String × Json) → String → Option Json
  | [], _ => none
  | (k, v) :: rest, name => if k = name then some v else lookupField rest name

/-- Keys of the top-level object of a serialized value. -/
def Json.topKeys : Json → List String
  | .obj fields => fields.map Prod.fst
  | _ => []

/-! ### Decimal digit output, as produced by integer Display formatting -/

def digitChar (n : Nat) : Char := Char.ofNat (48 + n)

def natToCharsAux : Nat → Nat → List Char
  | 0, _ => []
  | fuel + 1, n =>
      if n < 10 then [digitChar n]
      else natToCharsAux fuel (n / 10) ++ [digitChar (n % 10)]

/-- Decimal digits of a natural number, most significant first. -/
def natToChars (n : Nat) : List Char := natToCharsAux (n + 1) n

/-- Decimal form of an integer, as produced by Display / serde_json. -/
def intToChars (n : Int) : List Char :=
  if n < 0 then '-' :: natToChars n.natAbs else natToChars n.natAbs

/-! ### JSON string escaping, following the serde_json writer -/

def hexDigitChar (n : Nat) : Char :=
  if n < 10 then Char.ofNat (48 + n) else Char.ofNat (87 + n)

/-- Escape one character the way the serde_json compact writer does:
quote and backslash get two-character escapes, the five named control
characters get their short forms, any other control character below 0x20
becomes a lowercase `\u00XX` escape, and everything else is emitted raw. -/
def escapeChar (c : Char) : List Char :=
  if c = '"' then ['\\', '"']
  else if c = '\\' then ['\\', '\\']
  else if c.toNat = 8 then ['\\', 'b']
  else if c.toNat = 9 then ['\\', 't']
  else if c.toNat = 10 then ['\\', 'n']
  else if c.toNat = 12 then ['\\', 'f']
  else if c.toNat = 13 then ['\\', 'r']
  else if c.toNat < 32 then
    ['\\', 'u', '0', '0', hexDigitChar (c.toNat / 16), hexDigitChar (c.toNat % 16)]
  else [c]

def escapeChars : List Char → List Char
  | [] => []
  | c :: cs => escapeChar c ++ escapeChars cs

/-- A JSON string literal: quote, escaped body, quote. -/
def strLit (s : String) : List Char := '"' :: (escapeChars s.data ++ ['"'])

mutual

/-- Compact JSON serialization, as produced by `serde_json::to_string`. -/
def Json.ser : Json → List Char
  | .null => "null".data
  | .bool true => "true".data
  | .bool false => "false".data
  | .num n => intToChars n
  | .str s => strLit s
  | .arr xs => '[' :: Json.serList xs
  | .obj fs => '\x7b' :: Json.serPairs fs

def Json.serList : List Json → List Char
  | [] => [']']
  | x :: xs =>
      Json.ser x ++ match xs with
        | [] => [']']
        | y :: ys => ',' :: Json.serList (y :: ys)

def Json.serPairs : List (String × Json) → List Char
  | [] => ['\x7d']
  | (k, v) :: fs =>
      strLit k ++ ':' :: Json.ser v ++ match fs with
        | [] => ['\x7d']
        | g :: gs => ',' :: Json.serPairs (g :: gs)

end

/-- Byte length of the UTF-8 encoding of a character list; this is what
`str::len` returns on the corresponding Rust string. -/
def byteLen : List Char → Nat
  | [] => 0
  | c :: cs => c.utf8Size + byteLen cs

/-! ### JSON text analysis, following the serde_json reader grammar -/

def isWsChar (c : Char) : Bool := c = ' ' ∨ c = '\t' ∨ c = '\n' ∨ c = '\r'

def skipWs : List Char → List Char
  | [] => []
  | c :: cs => if isWsChar c then skipWs cs else c :: cs

def hexVal? (c : Char) : Option Nat :=
  if 48 ≤ c.toNat ∧ c.toNat ≤ 57 then some (c.toNat - 48)
  else if 97 ≤ c.toNat ∧ c.toNat ≤ 102 then some (c.toNat - 87)
  else if 65 ≤ c.toNat ∧ c.toNat ≤ 70 then some (c.toNat - 55)
  else none

/-- Decoded form of a single-character escape after a backslash. -/
def escCode? (e : Char) : Option Char :=
  if e = '"' then some '"'
  else if e = '\\' then some '\\'
  else if e = '/' then some '/'
  else if e = 'b' then some (Char.ofNat 8)
  else if e = 'f' then some (Char.ofNat 12)
  else if e = 'n' then some '\n'
  else if e = 'r' then some '\r'
  else if e = 't' then some '\t'
  else none

/-- Read a JSON string body after the opening quote, returning the decoded
characters and the input after the closing quote.  Lone surrogate escapes
are rejected; surrogate pairs are not modelled. -/
def parseStringBody : List Char → Option (List Char × List Char)
  | [] => none
  | c :: cs =>
    if c = '"' then some ([], cs)
    else if c = '\\' then
      match cs with
      | [] => none
      | e :: cs2 =>
        if e = 'u' then
          match cs2 with
          | h1 :: h2 :: h3 :: h4 :: rest =>
            match hexVal? h1, hexVal? h2, hexVal? h3, hexVal? h4 with
            | some a, some b, some c3, some d3 =>
              let code := ((a * 16 + b) * 16 + c3) * 16 + d3
              if 0xD800 ≤ code ∧ code < 0xE000 then none
              else
                match parseStringBody rest with
                | some (p, r) => some (Char.ofNat code :: p, r)
                | none => none
            | _, _, _, _ => none
          | _ => none
        else
          match escCode? e with
          | some d =>
            match parseStringBody cs2 with
            | some (p, r) => some (d :: p, r)
            | none => none
          | none => none
    else if c.toNat < 32 then none
    else
      match parseStringBody cs with
      | some (p, r) => some (c :: p, r)
      | none => none

def isDigitChar (c : Char) : Bool := 48 ≤ c.toNat ∧ c.toNat ≤ 57

def digitVal (c : Char) : Nat := c.toNat - 48

/-- Consume a run of decimal digits, accumulating their value. -/
def parseDigitsAux : Nat → List Char → Nat × List Char
  | acc, [] => (acc, [])
  | acc, c :: cs =>
      if isDigitChar c then parseDigitsAux (acc * 10 + digitVal c) cs
      else (acc, c :: cs)

/-- Read a JSON natural number literal: either a single `0`, or a nonzero
digit followed by more digits (JSON forbids leading zeros). -/
def parseNatChars : List Char → Option (Nat × List Char)
  | [] => none
  | c :: cs =>
      if c = '0' then some (0, cs)
      else if isDigitChar c then some (parseDigitsAux (digitVal c) cs)
      else none

/-- After an integer literal, a fraction or exponent marker would make the
number a float, which the model does not represent. -/
def numberFollowOk : List Char → Bool
  | [] => true
  | c :: _ => ¬(c = '.' ∨ c = 'e' ∨ c = 'E')

def parseNumber (s : List Char) : Option (Json × List Char) :=
  match s with
  | [] => none
  | c :: cs =>
    if c = '-' then
      match parseNatChars cs with
      | some (n, rest) =>
          if numberFollowOk rest then some (.num (-(n : Int)), rest) else none
      | none => none
    else
      match parseNatChars (c :: cs) with
      | some (n, rest) =>
          if numberFollowOk rest then some (.num (n : Int), rest) else none
      | none => none

mutual

/-- Fueled JSON value reader.  The fuel only bounds nesting of the
recursion; the top-level entry point supplies more fuel than the input
length, which is always enough. -/
def parseValueF : Nat → List Char → Option (Json × List Char)
  | 0, _ => none
  | fuel + 1, s =>
    match skipWs s with
    | [] => none
    | c :: cs =>
      if c = 'n' then
        if cs.take 3 = "ull".data then some (.null, cs.drop 3) else none
      else if c = 't' then
        if cs.take 3 = "rue".data then some (.bool true, cs.drop 3) else none
      else if c = 'f' then
        if cs.take 4 = "alse".data then some (.bool false, cs.drop 4) else none
      else if c = '"' then
        match parseStringBody cs with
        | some (p, r) => some (.str (String.mk p), r)
        | none => none
      else if c = '[' then
        if (skipWs cs).head? = some ']' then some (.arr [], (skipWs cs).tail)
        else
          match parseElemsF fuel (skipWs cs) with
          | some (vs, r) => some (.arr vs, r)
          | none => none
      else if c = '\x7b' then
        if (skipWs cs).head? = some '\x7d' then some (.obj [], (skipWs cs).tail)
        else
          match parseFieldsF fuel (skipWs cs) with
          | some (fs, r) => some (.obj fs, r)
          | none => none
      else parseNumber (c :: cs)

/-- Nonempty comma-separated array elements up to and including the
closing bracket. -/
def parseElemsF : Nat → List Char → Option (List Json × List Char)
  | 0, _ => none
  | fuel + 1, s =>
    match parseValueF fuel s with
    | none => none
    | some (v, r) =>
      if (skipWs r).head? = some ',' then
        match parseElemsF fuel (skipWs r).tail with
        | some (vs, r3) => some (v :: vs, r3)
        | none => none
      else if (skipWs r).head? = some ']' then some ([v], (skipWs r).tail)
      else none

/-- Nonempty comma-separated object members up to and including the
closing brace. -/
def parseFieldsF : Nat → List Char → Option (List (String × Json) × List Char)
  | 0, _ => none
  | fuel + 1, s =>
    if (skipWs s).head? = some '"' then
      match parseStringBody (skipWs s).tail with
      | none => none
      | some (k, r) =>
        if (skipWs r).head? = some ':' then
          match parseValueF fuel (skipWs r).tail with
          | none => none
          | some (v, r3) =>
            if (skipWs r3).head? = some ',' then
              match parseFieldsF fuel (skipWs r3).tail with
              | some (fs, r5) => some ((String.mk k, v) :: fs, r5)
              | none => none
            else if (skipWs r3).head? = some '\x7d' then
              some ([(String.mk k, v)], (skipWs r3).tail)
            else none
        else none
    else none

end

/-- Model of `serde_json::from_str::<Value>`: one JSON value surrounded
only by whitespace. -/
def parseTopJson (s : List Char) : Option Json :=
  match parseValueF (s.length + 1) s with
  | some (v, rest) => if skipWs rest = [] then some v else none
  | none => none

/-! ### The message data model of msg.rs -/

/-- The payload of a `RequestId`: `enum IdRepr` with `#[serde(untagged)]`. -/
inductive IdRepr where
  | i32 (n : Int) : IdRepr
  | string (s : String) : IdRepr
  deriving DecidableEq

/-- `pub struct RequestId(IdRepr)` with `#[serde(transparent)]`. -/
structure RequestId where
  idRepr : IdRepr
  deriving DecidableEq

/-- `struct CompletionContext`.  The source field `prefix` is renamed to
`prefixText` here; its wire key is still `"prefix"`.  `trigger_kind` has
type `lsp_types::CompletionTriggerKind`, a `#[serde(transparent)]`
newtype over `i32`, modelled as `Int` with the i32 range enforced at
decode time. -/
structure CompletionContext where
  line : String
  prefixText : String
  start_point : Int
  bounds_start : Int
  trigger_kind : Int
  deriving DecidableEq

/-- `struct ResolveContext`; `language_server_id` is a `usize`. -/
structure ResolveContext where
  language_server_id : Nat
  start : Int
  stop : Int
  deriving DecidableEq

/-- `struct WorkspaceContext`. -/
structure WorkspaceContext where
  workspace_root : String
  deriving DecidableEq

/-- `struct CommonContext`. -/
structure CommonContext where
  language_server_id : Nat
  deriving DecidableEq

/-- `enum Context` with `#[serde(untagged)]`, variants in source order. -/
inductive Context where
  | completionContext (c : CompletionContext) : Context
  | resolveContext (c : ResolveContext) : Context
  | commonContext (c : CommonContext) : Context
  | workspaceContext (c : WorkspaceContext) : Context
  deriving DecidableEq

/-- `struct Params`; `params` has a null default and is skipped when null. -/
structure Params where
  uri : Option String
  context : Option Context
  params : Json
  deriving DecidableEq

structure Request where
  id : RequestId
  method : String
  params : Params
  deriving DecidableEq

structure ResponseError where
  code : Int
  message : String
  data : Option Json
  deriving DecidableEq

structure Response where
  id : RequestId
  result : Option Json
  error : Option ResponseError
  deriving DecidableEq

structure Notification where
  method : String
  params : Params
  deriving DecidableEq

/-- `enum Message` with `#[serde(untagged)]`, variants in source order. -/
inductive Message where
  | request (r : Request) : Message
  | response (r : Response) : Message
  | notification (n : Notification) : Message
  deriving DecidableEq

/-! ### Serialization of the model types (derived Serialize impls) -/

def IdRepr.toJson : IdRepr → Json
  | .i32 n => .num n
  | .string s => .str s

def RequestId.toJson (id : RequestId) : Json := id.idRepr.toJson

def Context.toJson : Context → Json
  | .completionContext c =>
      .obj [("line", .str c.line), ("prefix", .str c.prefixText),
        ("startPoint", .num c.start_point), ("boundsStart", .num c.bounds_start),
        ("triggerKind", .num c.trigger_kind)]
  | .resolveContext c =>
      .obj [("language-server-id", .num c.language_server_id),
        ("start", .num c.start), ("end", .num c.stop)]
  | .commonContext c =>
      .obj [("language-server-id", .num c.language_server_id)]
  | .workspaceContext c =>
      .obj [("workspace-root", .str c.workspace_root)]

/-- Serialize an `Option` field without a skip attribute: `None` becomes
an explicit JSON null. -/
def optToJson (f : α → Json) : Option α → Json
  | none => .null
  | some a => f a

def Params.toJson (p : Params) : Json :=
  .obj ([("uri", optToJson Json.str p.uri),
    ("context", optToJson Context.toJson p.context)] ++
    (if p.params = Json.null then [] else [("params", p.params)]))

def ResponseError.toJson (e : ResponseError) : Json :=
  .obj ([("code", .num e.code), ("message", .str e.message)] ++
    (match e.data with
     | none => []
     | some d => [("data", d)]))

def Request.fieldsJson (r : Request) : List (String × Json) :=
  [("id", r.id.toJson), ("method", .str r.method), ("params", r.params.toJson)]

def Response.fieldsJson (r : Response) : List (String × Json) :=
  ("id", r.id.toJson) ::
    ((match r.result with
      | none => []
      | some v => [("result", v)]) ++
     (match r.error with
      | none => []
      | some e => [("error", e.toJson)]))

def Notification.fieldsJson (n : Notification) : List (String × Json) :=
  [("method", .str n.method), ("params", n.params.toJson)]

/-- Fields of the untagged serialization of a `Message`. -/
def Message.fieldsJson : Message → List (String × Json)
  | .request r => r.fieldsJson
  | .response r => r.fieldsJson
  | .notification n => n.fieldsJson

def Message.toJson (m : Message) : Json := .obj m.fieldsJson

/-- The wire envelope `JsonRpc` of `Message::_write`: the `jsonrpc`
version field followed by the flattened message fields. -/
def Message.envelopeJson (m : Message) : Json :=
  .obj (("jsonrpc", Json.str "2.0") :: m.fieldsJson)

/-! ### Deserialization of the model types (derived Deserialize impls) -/

def i32FromJson : Json → Option Int
  | .num n => if -2147483648 ≤ n ∧ n < 2147483648 then some n else none
  | _ => none

def usizeFromJson : Json → Option Nat
  | .num n => if 0 ≤ n ∧ n.toNat < 18446744073709551616 then some n.toNat else none
  | _ => none

def stringFromJson : Json → Option String
  | .str s => some s
  | _ => none

/-- Untagged `IdRepr`: try `I32`, then `String`. -/
def RequestId.fromJson (j : Json) : Option RequestId :=
  match i32FromJson j with
  | some n => some ⟨.i32 n⟩
  | none =>
    match j with
    | .str s => some ⟨.string s⟩
    | _ => none

/-- Decode an `Option` field: missing or null gives `None`; any other
value must decode with `dec`. -/
def optFieldL (dec : Json → Option α) (fs : List (String × Json)) (name : String) :
    Option (Option α) :=
  match lookupField fs name with
  | none => some none
  | some v => if v = Json.null then some none else (dec v).map some

def CompletionContext.fromJson : Json → Option CompletionContext
  | .obj fs => do
      let line ← lookupField fs "line" >>= stringFromJson
      let pfx ← lookupField fs "prefix" >>= stringFromJson
      let sp ← lookupField fs "startPoint" >>= i32FromJson
      let bs ← lookupField fs "boundsStart" >>= i32FromJson
      let tk ← lookupField fs "triggerKind" >>= i32FromJson
      some ⟨line, pfx, sp, bs, tk⟩
  | _ => none

def ResolveContext.fromJson : Json → Option ResolveContext
  | .obj fs => do
      let lsid ← lookupField fs "language-server-id" >>= usizeFromJson
      let s ← lookupField fs "start" >>= i32FromJson
      let e ← lookupField fs "end" >>= i32FromJson
      some ⟨lsid, s, e⟩
  | _ => none

def CommonContext.fromJson : Json → Option CommonContext
  | .obj fs => do
      let lsid ← lookupField fs "language-server-id" >>= usizeFromJson
      some ⟨lsid⟩
  | _ => none

def WorkspaceContext.fromJson : Json → Option WorkspaceContext
  | .obj fs => do
      let root ← lookupField fs "workspace-root" >>= stringFromJson
      some ⟨root⟩
  | _ => none

/-- Untagged `Context`: try CompletionContext, then ResolveContext, then
CommonContext, then WorkspaceContext, in source order. -/
def Context.fromJson (j : Json) : Option Context :=
  match CompletionContext.fromJson j with
  | some c => some (.completionContext c)
  | none =>
    match ResolveContext.fromJson j with
    | some c => some (.resolveContext c)
    | none =>
      match CommonContext.fromJson j with
      | some c => some (.commonContext c)
      | none => (WorkspaceContext.fromJson j).map .workspaceContext

def Params.fromJson : Json → Option Params
  | .obj fs => do
      let uri ← optFieldL stringFromJson fs "uri"
      let ctx ← optFieldL Context.fromJson fs "context"
      let p := match lookupField fs "params" with
        | none => Json.null
        | some v => v
      some ⟨uri, ctx, p⟩
  | _ => none

def Request.fromJson : Json → Option Request
  | .obj fs => do
      let id ← lookupField fs "id" >>= RequestId.fromJson
      let method ← lookupField fs "method" >>= stringFromJson
      let params ← lookupField fs "params" >>= Params.fromJson
      some ⟨id, method, params⟩
  | _ => none

def ResponseError.fromJson : Json → Option ResponseError
  | .obj fs => do
      let code ← lookupField fs "code" >>= i32FromJson
      let message ← lookupField fs "message" >>= stringFromJson
      let data ← optFieldL some fs "data"
      some ⟨code, message, data⟩
  | _ => none

def Response.fromJson : Json → Option Response
  | .obj fs => do
      let id ← lookupField fs "id" >>= RequestId.fromJson
      let result ← optFieldL some fs "result"
      let error ← optFieldL ResponseError.fromJson fs "error"
      some ⟨id, result, error⟩
  | _ => none

def Notification.fromJson : Json → Option Notification
  | .obj fs => do
      let method ← lookupField fs "method" >>= stringFromJson
      let params ← lookupField fs "params" >>= Params.fromJson
      some ⟨method, params⟩
  | _ => none

/-- Untagged `Message`: try Request, then Response, then Notification, in
source order. -/
def Message.fromJson (j : Json) : Option Message :=
  match Request.fromJson j with
  | some r => some (.request r)
  | none =>
    match Response.fromJson j with
    | some r => some (.response r)
    | none => (Notification.fromJson j).map .notification

/-! ### The wire codec of msg.rs -/

/-- The two kinds of `std::io::Error` the framing layer produces:
`read_exact` hitting end of stream, and the `InvalidData` errors built by
`invalid_data!` (and the UTF-8 check).  The carried text corresponds to
the formatted error message. -/
inductive IoError where
  | unexpectedEof : IoError
  | invalidData (msg : String) : IoError
  deriving DecidableEq

/-- One call of `BufRead::read_line`: everything up to and including the
first line feed, or the whole rest of the stream if none occurs, paired
with the unconsumed remainder. -/
def splitLine : List Char → List Char × List Char
  | [] => ([], [])
  | c :: cs =>
      if c = '\n' then ([c], cs)
      else
        let p := splitLine cs
        (c :: p.1, p.2)

/-- `buf.ends_with("\r\n")`. -/
def endsWithCRLF (l : List Char) : Bool :=
  match l.reverse with
  | a :: b :: _ => a = '\n' ∧ b = '\r'
  | _ => false

/-- `buf.splitn(2, ": ")` when the separator occurs: the part before the
first `": "` occurrence and the part after it. -/
def splitSep : List Char → Option (List Char × List Char)
  | [] => none
  | c :: cs =>
      if c = ':' ∧ cs.head? = some ' ' then some ([], cs.tail)
      else (splitSep cs).map (fun p => (c :: p.1, p.2))

/-- `str::eq_ignore_ascii_case`. -/
def asciiLower (c : Char) : Char :=
  if 65 ≤ c.toNat ∧ c.toNat ≤ 90 then Char.ofNat (c.toNat + 32) else c

def eqIgnoreAsciiCase (a b : List Char) : Bool :=
  a.map asciiLower = b.map asciiLower

def allDigits : List Char → Bool
  | [] => true
  | c :: cs => isDigitChar c && allDigits cs

def digitsValAux : List Char → Nat → Nat
  | [], acc => acc
  | c :: cs, acc => digitsValAux cs (acc * 10 + digitVal c)

def digitsVal (l : List Char) : Nat := digitsValAux l 0

/-- `str::parse::<usize>`: an optional leading plus sign, then one or more
digits, with the value below 2^64 (overflow is a parse error). -/
def parseUsize (s : List Char) : Option Nat :=
  let t := if s.head? = some '+' then s.tail else s
  if t = [] then none
  else if allDigits t then
    if digitsVal t < 18446744073709551616 then some (digitsVal t) else none
  else none

/-- The header loop of `read_msg_text`, reading one header line per
iteration until the empty line.  Returns `none` for the clean
end-of-stream outcome (`read_line` returning 0 bytes), and otherwise the
recorded `Content-Length` value together with the unconsumed stream.
The fuel only bounds the iteration count; `read_msg_text` supplies more
fuel than the stream length, which is always enough because every
iteration consumes at least one character. -/
def readHeaderLoopF : Nat → Option Nat → List Char → Except IoError (Option (Option Nat × List Char))
  | 0, _, _ => .error (.invalidData "fuel exhausted")
  | fuel + 1, size, s =>
    match s with
    | [] => .ok none
    | c :: cs =>
      let line := (splitLine (c :: cs)).1
      let rest := (splitLine (c :: cs)).2
      if endsWithCRLF line then
        let body := line.dropLast.dropLast
        if body = [] then .ok (some (size, rest))
        else
          match splitSep body with
          | none => .error (.invalidData ("malformed header: " ++ String.mk body))
          | some (name, value) =>
            if eqIgnoreAsciiCase name "Content-Length".data then
              match parseUsize value with
              | some n => readHeaderLoopF fuel (some n) rest
              | none => .error (.invalidData "invalid Content-Length value")
            else readHeaderLoopF fuel size rest
      else .error (.invalidData ("malformed header: " ++ String.mk line))

/-- `Read::read_exact` into a buffer of `n` bytes followed by the
`String::from_utf8` check: consume characters worth exactly `n` bytes.
Running out of stream is the `UnexpectedEof` of `read_exact`; a length
that cuts a character in half is the InvalidData error of the UTF-8
check. -/
def takeBytes : Nat → List Char → Except IoError (List Char × List Char)
  | n, s =>
    if n = 0 then .ok ([], s)
    else
      match s with
      | [] => .error .unexpectedEof
      | c :: cs =>
        if c.utf8Size ≤ n then
          match takeBytes (n - c.utf8Size) cs with
          | .ok (p, r) => .ok (c :: p, r)
          | .error e => .error e
        else .error (.invalidData "stream did not contain valid UTF-8")

/-- `read_msg_text`: parse the header block, require a `Content-Length`,
read exactly that many payload bytes.  `Ok(None)` is the clean
end-of-stream signal.  The unconsumed remainder of the stream is returned
alongside the payload. -/
def read_msg_text (s : List Char) : Except IoError (Option (List Char × List Char)) :=
  match readHeaderLoopF (s.length + 1) none s with
  | .error e => .error e
  | .ok none => .ok none
  | .ok (some (none, _)) => .error (.invalidData "no Content-Length")
  | .ok (some (some size, rest)) =>
      match takeBytes size rest with
      | .error e => .error e
      | .ok (payload, rest2) => .ok (some (payload, rest2))

/-- One event observed by the sink of a write: a chunk of bytes (given as
their character view) or a flush. -/
inductive WriteEvent where
  | chunk (chars : List Char) : WriteEvent
  | flush : WriteEvent
  deriving DecidableEq

/-- The exact header bytes written for a payload of byte length `n`. -/
def contentLengthHeader (n : Nat) : List Char :=
  "Content-Length: ".data ++ natToChars n ++ "\r\n\r\n".data

/-- `write_msg_text`: the formatted header write, the payload write, and
the flush, in order. -/
def write_msg_text (msg : List Char) : List WriteEvent :=
  [.chunk (contentLengthHeader (byteLen msg)), .chunk msg, .flush]

/-- All characters a sequence of write events leaves in the sink. -/
def writtenChars : List WriteEvent → List Char
  | [] => []
  | .chunk cs :: evs => cs ++ writtenChars evs
  | .flush :: evs => writtenChars evs

/-- `Message::_write`, with the bytecode transcoder
(`bytecode::generate_bytecode_repl` with default options, external to
msg.rs) passed in as a function on the envelope value.  On transcoder
success the alternate encoding is framed and written; on transcoder
failure the event is logged (not modelled) and the canonical JSON text is
framed and written instead. -/
def Message._write (transcoder : Json → Except String String) (m : Message) :
    List WriteEvent :=
  let json_val := m.envelopeJson
  let text := Json.ser m.envelopeJson
  match transcoder json_val with
  | .ok bytecode_str => write_msg_text bytecode_str.data
  | .error _ => write_msg_text text

/-- `Message::write` delegates to `_write`. -/
def Message.write (transcoder : Json → Except String String) (m : Message) :
    List WriteEvent :=
  Message._write transcoder m

/-- `Message::_read`: frame read, then `serde_json::from_str` into a
`Message` (decode failure is converted into an error by the `?`
operator).  Returns the message together with the unconsumed stream. -/
def Message._read (s : List Char) : Except IoError (Option (Message × List Char)) :=
  match read_msg_text s with
  | .error e => .error e
  | .ok none => .ok none
  | .ok (some (text, rest)) =>
      match (parseTopJson text).bind Message.fromJson with
      | some m => .ok (some (m, rest))
      | none => .error (.invalidData "invalid JSON message")

/-- `Message::read` delegates to `_read`. -/
def Message.read (s : List Char) : Except IoError (Option (Message × List Char)) :=
  Message._read s

/-! ### RequestId conversions and extraction -/

/-- `From<i32> for RequestId`. -/
def RequestId.fromI32 (n : Int) : RequestId := ⟨.i32 n⟩

/-- `From<String> for RequestId`. -/
def RequestId.fromString (s : String) : RequestId := ⟨.string s⟩

/-- `From<RequestId> for i32`; the `String` branch panics in the source,
modelled as `none`. -/
def RequestId.toI32? (id : RequestId) : Option Int :=
  match id.idRepr with
  | .i32 v => some v
  | .string _ => none

/-- Modelled from the spec: `crate::error::ExtractError` (its definition
is outside msg.rs).  `MethodMismatch` carries the original value back to
the caller; `JsonError` carries the method name and the underlying decode
error. -/
inductive ExtractError (α : Type) where
  | methodMismatch (v : α) : ExtractError α
  | jsonError (method : String) (error : String) : ExtractError α
  deriving DecidableEq

/-- `Request::extract`, with the `serde_json::from_value` decoder for the
target parameter type passed in as a function. -/
def Request.extract (dec : Json → Except String π) (method : String) (r : Request) :
    Except (ExtractError Request) (RequestId × π) :=
  if r.method ≠ method then .error (.methodMismatch r)
  else
    match dec r.params.params with
    | .ok params => .ok (r.id, params)
    | .error e => .error (.jsonError r.method e)

/-- `Notification::extract`. -/
def Notification.extract (dec : Json → Except String π) (method : String)
    (n : Notification) : Except (ExtractError Notification) π :=
  if n.method ≠ method then .error (.methodMismatch n)
  else
    match dec n.params.params with
    | .ok params => .ok params
    | .error e => .error (.jsonError n.method e)

/-- `Response::new_ok`, with the already-serialized result value (the
source serializes `result` with `serde_json::to_value(..).unwrap()`). -/
def Response.new_ok (id : RequestId) (result : Json) : Response :=
  ⟨id, some result, none⟩

/-- `Response::new_err`. -/
def Response.new_err (id : RequestId) (code : Int) (message : String) : Response :=
  ⟨id, none, some ⟨code, message, none⟩⟩

/-- A transcoder that always fails, exercising the fallback path of
`Message::_write` in which the canonical JSON text is written. -/
def failTranscoder : Json → Except String String :=
  fun _ => .error "transcode failed"

/-! ### Range invariants carried by the Rust types -/

/-- The value range of an `i32`. -/
def i32Ok (n : Int) : Bool := -2147483648 ≤ n ∧ n < 2147483648

/-- The value range of a 64-bit `usize`. -/
def usizeOk (n : Nat) : Bool := n < 18446744073709551616

mutual

/-- Numbers representable by `serde_json::Value` (i64 or u64 range). -/
def Json.wfB : Json → Bool
  | .null => true
  | .bool _ => true
  | .num n => -9223372036854775808 ≤ n ∧ n < 18446744073709551616
  | .str _ => true
  | .arr xs => Json.wfListB xs
  | .obj fs => Json.wfPairsB fs

def Json.wfListB : List Json → Bool
  | [] => true
  | x :: xs => Json.wfB x && Json.wfListB xs

def Json.wfPairsB : List (String × Json) → Bool
  | [] => true
  | (_, v) :: fs => Json.wfB v && Json.wfPairsB fs

end

def IdRepr.wfB : IdRepr → Bool
  | .i32 n => i32Ok n
  | .string _ => true

def Context.wfB : Context → Bool
  | .completionContext c => i32Ok c.start_point && i32Ok c.bounds_start && i32Ok c.trigger_kind
  | .resolveContext c => usizeOk c.language_server_id && i32Ok c.start && i32Ok c.stop
  | .commonContext c => usizeOk c.language_server_id
  | .workspaceContext _ => true

def Params.wfB (p : Params) : Bool :=
  (match p.context with
   | some c => c.wfB
   | none => true) && p.params.wfB

def ResponseError.wfB (e : ResponseError) : Bool :=
  i32Ok e.code &&
    (match e.data with
     | some d => d.wfB
     | none => true)

def Response.wfB (r : Response) : Bool :=
  r.id.idRepr.wfB &&
    (match r.result with
     | some v => v.wfB
     | none => true) &&
    (match r.error with
     | some e => e.wfB
     | none => true)

def Request.wfB (r : Request) : Bool := r.id.idRepr.wfB && r.params.wfB

def Notification.wfB (n : Notification) : Bool := n.params.wfB

/-- The typing invariants the Rust `Message` type carries for free:
every number fits the machine-integer type that holds it. -/
def Message.wfB : Message → Bool
  | .request r => r.wfB
  | .response r => r.wfB
  | .notification n => n.wfB

/-- A `Some(Value::Null)` stored in `result` (or in an error `data`)
serializes to an explicit null, which reads back as the absent field;
messages free of that pattern are the ones whose optional-value fields
survive the round trip. -/
def Message.noExplicitNullOpt : Message → Bool
  | .response r =>
      decide (r.result ≠ some Json.null) &&
        (match r.error with
         | some e => decide (e.data ≠ some Json.null)
         | none => true)
  | _ => true

deriving instance DecidableEq for Except

/-- Heads of the rest after a rendered number, for which digit
consumption stops. -/
def noDigitHead (rest : List Char) : Prop :=
  ∀ c, rest.head? = some c → isDigitChar c = false

/-- Characters that may legally follow a serialized value: nothing, or a
separator or closer of the enclosing composite. -/
def followOkB : List Char → Bool
  | [] => true
  | c :: _ => c = ',' ∨ c = ']' ∨ c = '\x7d'

def hasSepB : List Char → Bool
  | [] => false
  | c :: cs => (c = ':' && cs.head? = some ' ') || hasSepB cs

/-- A complete well-formed header line: terminated by CR LF, no interior
line feed, nonempty body with a name-value separator, and if the name is
Content-Length then its value parses. -/
def headerSepOkB (body : List Char) : Bool :=
  match splitSep body with
  | none => false
  | some (name, value) =>
      if eqIgnoreAsciiCase name "Content-Length".data then (parseUsize value).isSome
      else true

def headerLineOkB (l : List Char) : Bool :=
  endsWithCRLF l && decide (¬ '\n' ∈ l.dropLast.dropLast) &&
    decide (¬l.dropLast.dropLast = []) && headerSepOkB l.dropLast.dropLast

/-- The Content-Length state after processing one well-formed header line. -/
def lineSize (size : Option Nat) (l : List Char) : Option Nat :=
  match splitSep l.dropLast.dropLast with
  | none => size
  | some (name, value) =>
      if eqIgnoreAsciiCase name "Content-Length".data then parseUsize value
      else size

/-- Whether a header line names Content-Length (case-insensitively). -/
def isContentLengthLineB (l : List Char) : Bool :=
  match splitSep l.dropLast.dropLast with
  | none => false
  | some (name, _) => eqIgnoreAsciiCase name "Content-Length".data

/-! ### Lemmas: decimal digits round trip -/

theorem digitChar_isDigit : ∀ d : Nat, d < 10 → isDigitChar (digitChar d) = true := by
  decide

theorem digitVal_digitChar : ∀ d : Nat, d < 10 → digitVal (digitChar d) = d := by
  decide

theorem digitChar_ne_zero : ∀ d : Nat, d < 10 → 0 < d → digitChar d ≠ '0' := by
  decide

theorem isDigitChar_toNat {c : Char} (h : isDigitChar c = true) :
    48 ≤ c.toNat ∧ c.toNat ≤ 57 := by
  simpa [isDigitChar] using h

theorem isDigitChar_ne {c d : Char} (h : isDigitChar c = true)
    (hd : isDigitChar d = false) : c ≠ d := by
  intro he
  rw [he] at h
  simp [h] at hd

theorem allDigits_append {a b : List Char} :
    allDigits (a ++ b) = (allDigits a && allDigits b) := by
  induction a with
  | nil => simp [allDigits]
  | cons c cs ih => simp [allDigits, ih, Bool.and_assoc]

theorem allDigits_mem {l : List Char} (h : allDigits l = true) {c : Char}
    (hc : c ∈ l) : isDigitChar c = true := by
  induction l with
  | nil => cases hc
  | cons d ds ih =>
      simp only [allDigits, Bool.and_eq_true] at h
      rcases List.mem_cons.mp hc with rfl | hmem
      · exact h.1
      · exact ih h.2 hmem

theorem natToCharsAux_allDigits :
    ∀ fuel n, n < fuel → allDigits (natToCharsAux fuel n) = true := by
  intro fuel
  induction fuel with
  | zero => intro n h; omega
  | succ fuel ih =>
      intro n hn
      rw [natToCharsAux]
      by_cases h10 : n < 10
      · simp [h10, allDigits, digitChar_isDigit n h10]
      · have hdiv : n / 10 < fuel := by
          have h1 : n / 10 < n := Nat.div_lt_self (by omega) (by omega)
          omega
        simp [h10, allDigits_append, ih _ hdiv, allDigits,
          digitChar_isDigit (n % 10) (Nat.mod_lt n (by omega))]

theorem natToCharsAux_head :
    ∀ fuel n, n < fuel → ∃ c cs, natToCharsAux fuel n = c :: cs ∧
      isDigitChar c = true ∧ (0 < n → c ≠ '0') := by
  intro fuel
  induction fuel with
  | zero => intro n h; omega
  | succ fuel ih =>
      intro n hn
      rw [natToCharsAux]
      by_cases h10 : n < 10
      · exact ⟨digitChar n, [], by simp [h10], digitChar_isDigit n h10,
          digitChar_ne_zero n h10⟩
      · have hdiv : n / 10 < fuel := by
          have h1 : n / 10 < n := Nat.div_lt_self (by omega) (by omega)
          omega
        obtain ⟨c, cs, he, hdig, hz⟩ := ih _ hdiv
        refine ⟨c, cs ++ [digitChar (n % 10)], by simp [h10, he], hdig, fun _ => ?_⟩
        exact hz (Nat.div_pos (by omega) (by omega))

theorem parseDigitsAux_stop {acc : Nat} {rest : List Char}
    (h : ∀ c, rest.head? = some c → isDigitChar c = false) :
    parseDigitsAux acc rest = (acc, rest) := by
  cases rest with
  | nil => rfl
  | cons c cs =>
      rw [parseDigitsAux]
      simp [h c rfl]

theorem parseDigitsAux_chunk :
    ∀ fuel n acc rest, n < fuel →
      parseDigitsAux acc (natToCharsAux fuel n ++ rest) =
        parseDigitsAux (acc * 10 ^ (natToCharsAux fuel n).length + n) rest := by
  intro fuel
  induction fuel with
  | zero => intro n acc rest h; omega
  | succ fuel ih =>
      intro n acc rest hn
      rw [natToCharsAux]
      by_cases h10 : n < 10
      · simp only [h10, if_true, List.singleton_append, List.length_singleton]
        rw [parseDigitsAux]
        simp [digitChar_isDigit n h10, digitVal_digitChar n h10]
      · have hdiv : n / 10 < fuel := by
          have h1 : n / 10 < n := Nat.div_lt_self (by omega) (by omega)
          omega
        have hmod : n % 10 < 10 := Nat.mod_lt n (by omega)
        simp only [h10, if_false, List.append_assoc, List.singleton_append]
        rw [ih _ acc _ hdiv]
        rw [parseDigitsAux]
        simp only [digitChar_isDigit _ hmod, if_true,
          digitVal_digitChar _ hmod, List.length_append, List.length_singleton]
        have key : ∀ a : Nat, (a + n / 10) * 10 + n % 10 = a * 10 + n := by
          intro a
          omega
        rw [key (acc * 10 ^ (natToCharsAux fuel (n / 10)).length), pow_succ,
          ← mul_assoc]

theorem natToChars_allDigits (n : Nat) : allDigits (natToChars n) = true :=
  natToCharsAux_allDigits (n + 1) n (Nat.lt_succ_self n)

theorem natToChars_head (n : Nat) :
    ∃ c cs, natToChars n = c :: cs ∧ isDigitChar c = true ∧ (0 < n → c ≠ '0') :=
  natToCharsAux_head (n + 1) n (Nat.lt_succ_self n)

theorem natToChars_zero : natToChars 0 = ['0'] := rfl

theorem parseDigitsAux_natToChars (n : Nat) (acc : Nat) (rest : List Char) :
    parseDigitsAux acc (natToChars n ++ rest) =
      parseDigitsAux (acc * 10 ^ (natToChars n).length + n) rest :=
  parseDigitsAux_chunk (n + 1) n acc rest (Nat.lt_succ_self n)

theorem parseNatChars_natToChars (n : Nat) (rest : List Char)
    (hrest : noDigitHead rest) :
    parseNatChars (natToChars n ++ rest) = some (n, rest) := by
  rcases Nat.eq_zero_or_pos n with rfl | hpos
  · rw [natToChars_zero]
    rw [List.cons_append, parseNatChars]
    simp [parseDigitsAux_stop hrest]
  · obtain ⟨c, cs, he, hdig, hz⟩ := natToChars_head n
    have hC : parseDigitsAux 0 (natToChars n ++ rest) = (n, rest) := by
      rw [parseDigitsAux_natToChars]
      simpa using parseDigitsAux_stop hrest
    rw [he] at hC ⊢
    rw [List.cons_append, parseNatChars]
    rw [List.cons_append, parseDigitsAux] at hC
    simp only [hdig, if_true] at hC
    simp only [hz hpos, if_false, hdig, if_true]
    rw [show digitVal c = 0 * 10 + digitVal c by omega]
    rw [hC]

theorem isDigitChar_ne_chars {c : Char} (h : isDigitChar c = true) :
    c ≠ '-' ∧ c ≠ '+' ∧ c ≠ '.' ∧ c ≠ 'e' ∧ c ≠ 'E' ∧ c ≠ '\n' ∧ c ≠ '\r' := by
  have hb := isDigitChar_toNat h
  refine ⟨?_, ?_, ?_, ?_, ?_, ?_, ?_⟩ <;>
    (intro he; rw [he] at hb; revert hb; decide)

theorem parseNumber_intToChars (n : Int) (rest : List Char)
    (hrest : noDigitHead rest) (hfollow : numberFollowOk rest = true) :
    parseNumber (intToChars n ++ rest) = some (.num n, rest) := by
  rcases Int.lt_or_le n 0 with hneg | hpos
  · rw [intToChars, if_pos hneg, List.cons_append, parseNumber]
    simp only [if_pos rfl]
    rw [parseNatChars_natToChars n.natAbs rest hrest]
    simp only [hfollow, if_true]
    have hx : -((n.natAbs : Int)) = n := by omega
    rw [hx]
  · rw [intToChars, if_neg (by omega)]
    obtain ⟨c, cs, he, hdig, _⟩ := natToChars_head n.natAbs
    rw [he, List.cons_append, parseNumber]
    simp only [(isDigitChar_ne_chars hdig).1, if_false]
    rw [← List.cons_append, ← he, parseNatChars_natToChars n.natAbs rest hrest]
    simp only [hfollow, if_true]
    have hx : ((n.natAbs : Int)) = n := by omega
    rw [hx]

theorem digitsValAux_parseDigitsAux {l : List Char} (h : allDigits l = true)
    (acc : Nat) : parseDigitsAux acc l = (digitsValAux l acc, []) := by
  induction l generalizing acc with
  | nil => rfl
  | cons c cs ih =>
      simp only [allDigits, Bool.and_eq_true] at h
      rw [parseDigitsAux, digitsValAux]
      simp [h.1, ih h.2]

theorem digitsVal_natToChars (n : Nat) : digitsVal (natToChars n) = n := by
  have h1 := parseDigitsAux_natToChars n 0 []
  rw [List.append_nil] at h1
  rw [digitsValAux_parseDigitsAux (natToChars_allDigits n) 0] at h1
  rw [show parseDigitsAux (0 * 10 ^ (natToChars n).length + n) [] =
      (0 * 10 ^ (natToChars n).length + n, []) from by
    rw [parseDigitsAux]] at h1
  have h3 := congrArg Prod.fst h1
  simpa [digitsVal] using h3

theorem parseUsize_natToChars (n : Nat) (hn : n < 18446744073709551616) :
    parseUsize (natToChars n) = some n := by
  obtain ⟨c, cs, he, hdig, _⟩ := natToChars_head n
  rw [parseUsize]
  have hplus : ¬(natToChars n).head? = some '+' := by
    rw [he]
    simp only [List.head?_cons, Option.some.injEq]
    exact (isDigitChar_ne_chars hdig).2.1
  have hne : ¬natToChars n = [] := by
    rw [he]
    simp
  simp only [hplus, if_false, hne, natToChars_allDigits n, if_true,
    digitsVal_natToChars n]
  rw [if_pos hn]

/-! ### Lemmas: string escaping round trip -/

theorem hexVal_hexDigitChar : ∀ m : Nat, m < 16 → hexVal? (hexDigitChar m) = some m := by
  decide

theorem parseStringBody_escape :
    ∀ l rest, parseStringBody (escapeChars l ++ '"' :: rest) = some (l, rest) := by
  intro l
  induction l with
  | nil =>
      intro rest
      rw [escapeChars, List.nil_append, parseStringBody.eq_def]
      simp
  | cons c cs ih =>
      intro rest
      rw [escapeChars, List.append_assoc, escapeChar]
      by_cases h1 : c = '"'
      · subst h1
        simp only [List.cons_append, List.nil_append]
        rw [parseStringBody.eq_def]
        simp [escCode?, ih rest]
      · rw [if_neg h1]
        by_cases h2 : c = '\\'
        · subst h2
          simp only [List.cons_append, List.nil_append]
          rw [parseStringBody.eq_def]
          simp [escCode?, ih rest]
        · rw [if_neg h2]
          by_cases h3 : c.toNat = 8
          · rw [if_pos h3]
            have hc : Char.ofNat 8 = c := by rw [← h3, Char.ofNat_toNat]
            simp only [List.cons_append, List.nil_append]
            rw [parseStringBody.eq_def]
            simp [escCode?, ih rest, hc]
            exact hc
          · rw [if_neg h3]
            by_cases h4 : c.toNat = 9
            · rw [if_pos h4]
              have hc : '\t' = c := by
                have h := Char.ofNat_toNat c
                rw [h4] at h
                simpa using h
              simp only [List.cons_append, List.nil_append]
              rw [parseStringBody.eq_def]
              simp [escCode?, ih rest, hc]
              exact hc
            · rw [if_neg h4]
              by_cases h5 : c.toNat = 10
              · rw [if_pos h5]
                have hc : '\n' = c := by
                  have h := Char.ofNat_toNat c
                  rw [h5] at h
                  simpa using h
                simp only [List.cons_append, List.nil_append]
                rw [parseStringBody.eq_def]
                simp [escCode?, ih rest, hc]
                exact hc
              · rw [if_neg h5]
                by_cases h6 : c.toNat = 12
                · rw [if_pos h6]
                  have hc : Char.ofNat 12 = c := by rw [← h6, Char.ofNat_toNat]
                  simp only [List.cons_append, List.nil_append]
                  rw [parseStringBody.eq_def]
                  simp [escCode?, ih rest, hc]
                  exact hc
                · rw [if_neg h6]
                  by_cases h7 : c.toNat = 13
                  · rw [if_pos h7]
                    have hc : '\r' = c := by
                      have h := Char.ofNat_toNat c
                      rw [h7] at h
                      simpa using h
                    simp only [List.cons_append, List.nil_append]
                    rw [parseStringBody.eq_def]
                    simp [escCode?, ih rest, hc]
                    exact hc
                  · rw [if_neg h7]
                    by_cases h8 : c.toNat < 32
                    · rw [if_pos h8]
                      have hdiv : c.toNat / 16 < 16 := by omega
                      have hmod : c.toNat % 16 < 16 := by omega
                      simp only [List.cons_append, List.nil_append]
                      rw [parseStringBody.eq_def]
                      simp only [if_neg (by decide : ¬('\\' : Char) = '"'), if_pos rfl,
                        if_pos (rfl : ('u' : Char) = 'u'),
                        hexVal_hexDigitChar _ hdiv, hexVal_hexDigitChar _ hmod,
                        show hexVal? '0' = some 0 from rfl]
                      have hcode : ((0 * 16 + 0) * 16 + c.toNat / 16) * 16 + c.toNat % 16
                          = c.toNat := by omega
                      have hsur : ¬(55296 ≤ c.toNat ∧ c.toNat < 57344) := by omega
                      simp only [hcode, hsur, if_false, ih rest, Char.ofNat_toNat]
                      simp
                    · rw [if_neg h8]
                      simp only [List.cons_append, List.nil_append]
                      rw [parseStringBody.eq_def]
                      simp only [if_neg h1, if_neg h2, if_neg h8, ih rest]

/-! ### Lemmas: JSON text round trip -/

theorem skipWs_not_ws {c : Char} (h : isWsChar c = false) (cs : List Char) :
    skipWs (c :: cs) = c :: cs := by
  rw [skipWs]
  simp [h]

theorem followOkB_facts {rest : List Char} (h : followOkB rest = true) :
    noDigitHead rest ∧ numberFollowOk rest = true := by
  cases rest with
  | nil => exact ⟨fun c hc => (nomatch hc), rfl⟩
  | cons c cs =>
      have h2 : c = ',' ∨ c = ']' ∨ c = '\x7d' := by simpa [followOkB] using h
      have hstep : ∀ d, (c :: cs).head? = some d → d = c := by
        intro d hd
        simpa using hd.symm
      rcases h2 with rfl | rfl | rfl <;>
        refine ⟨fun d hd => ?_, by simp [numberFollowOk]⟩ <;>
        · rw [hstep d hd]
          decide

theorem isDigit_not_ws {c : Char} (h : isDigitChar c = true) : isWsChar c = false := by
  have hb := isDigitChar_toNat h
  simp only [isWsChar, decide_eq_false_iff_not]
  rintro (rfl | rfl | rfl | rfl) <;> revert hb <;> decide

theorem ser_head (v : Json) :
    ∃ c cs, Json.ser v = c :: cs ∧ isWsChar c = false ∧ c ≠ ']' ∧ c ≠ '\x7d' := by
  cases v with
  | null => exact ⟨'n', _, rfl, by decide, by decide, by decide⟩
  | bool b =>
      cases b with
      | false => exact ⟨'f', _, rfl, by decide, by decide, by decide⟩
      | true => exact ⟨'t', _, rfl, by decide, by decide, by decide⟩
  | num n =>
      rw [Json.ser, intToChars]
      by_cases hn : n < 0
      · rw [if_pos hn]
        exact ⟨'-', _, rfl, by decide, by decide, by decide⟩
      · rw [if_neg hn]
        obtain ⟨c, cs, he, hdig, _⟩ := natToChars_head n.natAbs
        exact ⟨c, cs, he, isDigit_not_ws hdig,
          isDigitChar_ne hdig (by decide), isDigitChar_ne hdig (by decide)⟩
  | str s => exact ⟨'"', _, rfl, by decide, by decide, by decide⟩
  | arr xs => exact ⟨'[', _, rfl, by decide, by decide, by decide⟩
  | obj fs => exact ⟨'\x7b', _, rfl, by decide, by decide, by decide⟩

theorem serList_single (x : Json) : Json.serList [x] = Json.ser x ++ [']'] := by
  rw [Json.serList]

theorem serList_cons2 (x y : Json) (ys : List Json) :
    Json.serList (x :: y :: ys) = Json.ser x ++ ',' :: Json.serList (y :: ys) := by
  rw [Json.serList]

theorem serPairs_single (k : String) (v : Json) :
    Json.serPairs [(k, v)] = strLit k ++ ':' :: Json.ser v ++ ['\x7d'] := by
  rw [Json.serPairs]

theorem serPairs_cons2 (k : String) (v : Json) (g : String × Json)
    (gs : List (String × Json)) :
    Json.serPairs ((k, v) :: g :: gs) =
      strLit k ++ ':' :: Json.ser v ++ ',' :: Json.serPairs (g :: gs) := by
  rw [Json.serPairs]

theorem parseValueF_default (k : Nat) {c : Char} (cs : List Char)
    (hws : isWsChar c = false) (h1 : ¬c = 'n') (h2 : ¬c = 't') (h3 : ¬c = 'f')
    (h4 : ¬c = '"') (h5 : ¬c = '[') (h6 : ¬c = '\x7b') :
    parseValueF (k + 1) (c :: cs) = parseNumber (c :: cs) := by
  rw [parseValueF.eq_def]
  simp [skipWs_not_ws hws, h1, h2, h3, h4, h5, h6]

mutual

theorem parse_ser : ∀ (v : Json) (fuel : Nat) (rest : List Char),
    (Json.ser v).length < fuel → followOkB rest = true →
    parseValueF fuel (Json.ser v ++ rest) = some (v, rest)
  | .null, fuel, rest, hfuel, hrest => by
      cases fuel with
      | zero => exact absurd hfuel (Nat.not_lt_zero _)
      | succ k =>
          rw [show Json.ser .null = ['n', 'u', 'l', 'l'] from rfl]
          rw [parseValueF.eq_def]
          simp [skipWs, isWsChar]
  | .bool true, fuel, rest, hfuel, hrest => by
      cases fuel with
      | zero => exact absurd hfuel (Nat.not_lt_zero _)
      | succ k =>
          rw [show Json.ser (.bool true) = ['t', 'r', 'u', 'e'] from rfl]
          rw [parseValueF.eq_def]
          simp [skipWs, isWsChar]
  | .bool false, fuel, rest, hfuel, hrest => by
      cases fuel with
      | zero => exact absurd hfuel (Nat.not_lt_zero _)
      | succ k =>
          rw [show Json.ser (.bool false) = ['f', 'a', 'l', 's', 'e'] from rfl]
          rw [parseValueF.eq_def]
          simp [skipWs, isWsChar]
  | .num n, fuel, rest, hfuel, hrest => by
      cases fuel with
      | zero => exact absurd hfuel (Nat.not_lt_zero _)
      | succ k =>
          obtain ⟨hnd, hnf⟩ := followOkB_facts hrest
          rcases Int.lt_or_le n 0 with hneg | hpos
          · have hich : intToChars n = '-' :: natToChars n.natAbs := by
              rw [intToChars, if_pos hneg]
            rw [show Json.ser (.num n) = intToChars n from rfl, hich,
              List.cons_append,
              parseValueF_default k _ (by decide) (by decide) (by decide)
                (by decide) (by decide) (by decide) (by decide),
              ← List.cons_append, ← hich,
              parseNumber_intToChars n rest hnd hnf]
          · obtain ⟨c, cs, he, hdig, _⟩ := natToChars_head n.natAbs
            have hich : intToChars n = c :: cs := by
              rw [intToChars, if_neg (by omega), he]
            rw [show Json.ser (.num n) = intToChars n from rfl, hich,
              List.cons_append,
              parseValueF_default k _ (isDigit_not_ws hdig)
                (isDigitChar_ne hdig (by decide)) (isDigitChar_ne hdig (by decide))
                (isDigitChar_ne hdig (by decide)) (isDigitChar_ne hdig (by decide))
                (isDigitChar_ne hdig (by decide)) (isDigitChar_ne hdig (by decide)),
              ← List.cons_append, ← hich,
              parseNumber_intToChars n rest hnd hnf]
  | .str s, fuel, rest, hfuel, hrest => by
      cases fuel with
      | zero => exact absurd hfuel (Nat.not_lt_zero _)
      | succ k =>
          rw [show Json.ser (.str s) ++ rest =
              '"' :: (escapeChars s.data ++ '"' :: rest) from by
            rw [show Json.ser (.str s) = strLit s from rfl, strLit]
            simp]
          rw [parseValueF.eq_def]
          simp [skipWs, isWsChar, parseStringBody_escape s.data rest]
  | .arr [], fuel, rest, hfuel, hrest => by
      cases fuel with
      | zero => exact absurd hfuel (Nat.not_lt_zero _)
      | succ k =>
          rw [show Json.ser (.arr []) = ['[', ']'] from rfl]
          rw [parseValueF.eq_def]
          simp [skipWs, isWsChar]
  | .arr (x :: xs), fuel, rest, hfuel, hrest => by
      cases fuel with
      | zero => exact absurd hfuel (Nat.not_lt_zero _)
      | succ k =>
          obtain ⟨c, cs, he, hws, hne1, _⟩ := ser_head x
          have hserx : ∃ t, Json.serList (x :: xs) = c :: t := by
            cases xs with
            | nil => exact ⟨cs ++ [']'], by rw [serList_single, he]; simp⟩
            | cons y ys =>
                exact ⟨cs ++ ',' :: Json.serList (y :: ys), by
                  rw [serList_cons2, he]; simp⟩
          obtain ⟨t, ht⟩ := hserx
          have hlen : (Json.serList (x :: xs)).length < k := by
            have h1 : (Json.ser (.arr (x :: xs))).length =
                (Json.serList (x :: xs)).length + 1 := by
              rw [show Json.ser (.arr (x :: xs)) =
                '[' :: Json.serList (x :: xs) from rfl]
              simp
            omega
          have hrec := parse_serList x xs k rest hlen hrest
          rw [ht, List.cons_append] at hrec
          rw [show Json.ser (.arr (x :: xs)) ++ rest =
              '[' :: (c :: (t ++ rest)) from by
            rw [show Json.ser (.arr (x :: xs)) =
              '[' :: Json.serList (x :: xs) from rfl, ht]
            simp]
          rw [parseValueF.eq_def]
          simp [skipWs_not_ws (show isWsChar '[' = false from by decide), skipWs_not_ws hws, hne1, hrec]
  | .obj [], fuel, rest, hfuel, hrest => by
      cases fuel with
      | zero => exact absurd hfuel (Nat.not_lt_zero _)
      | succ k =>
          rw [show Json.ser (.obj []) = ['\x7b', '\x7d'] from rfl]
          rw [parseValueF.eq_def]
          simp [skipWs, isWsChar]
  | .obj (f :: fs), fuel, rest, hfuel, hrest => by
      cases fuel with
      | zero => exact absurd hfuel (Nat.not_lt_zero _)
      | succ k =>
          have hserx : ∃ t, Json.serPairs (f :: fs) = '"' :: t := by
            cases f with
            | mk kk vv =>
              cases fs with
              | nil =>
                  exact ⟨escapeChars kk.data ++ ['"'] ++ ':' :: Json.ser vv ++ ['\x7d'], by
                    rw [serPairs_single, strLit]; simp⟩
              | cons g gs =>
                  exact ⟨escapeChars kk.data ++ ['"'] ++ ':' :: Json.ser vv ++
                    ',' :: Json.serPairs (g :: gs), by
                    rw [serPairs_cons2, strLit]; simp⟩
          obtain ⟨t, ht⟩ := hserx
          have hlen : (Json.serPairs (f :: fs)).length < k := by
            have h1 : (Json.ser (.obj (f :: fs))).length =
                (Json.serPairs (f :: fs)).length + 1 := by
              rw [show Json.ser (.obj (f :: fs)) =
                '\x7b' :: Json.serPairs (f :: fs) from rfl]
              simp
            omega
          have hrec := parse_serPairs f fs k rest hlen hrest
          rw [ht, List.cons_append] at hrec
          rw [show Json.ser (.obj (f :: fs)) ++ rest =
              '\x7b' :: ('"' :: (t ++ rest)) from by
            rw [show Json.ser (.obj (f :: fs)) =
              '\x7b' :: Json.serPairs (f :: fs) from rfl, ht]
            simp]
          rw [parseValueF.eq_def]
          simp [skipWs, isWsChar, hrec]

theorem parse_serList : ∀ (x : Json) (xs : List Json) (fuel : Nat) (rest : List Char),
    (Json.serList (x :: xs)).length < fuel → followOkB rest = true →
    parseElemsF fuel (Json.serList (x :: xs) ++ rest) = some (x :: xs, rest)
  | x, [], fuel, rest, hfuel, hrest => by
      cases fuel with
      | zero => exact absurd hfuel (Nat.not_lt_zero _)
      | succ k =>
          have hfx : (Json.ser x).length < k := by
            have hl : (Json.serList [x]).length = (Json.ser x).length + 1 := by
              rw [serList_single]
              simp
            omega
          have hv := parse_ser x k (']' :: rest) hfx (by rfl)
          rw [serList_single, List.append_assoc,
            show ([']'] ++ rest : List Char) = ']' :: rest from rfl,
            parseElemsF.eq_def]
          simp [skipWs, isWsChar, hv]
  | x, y :: ys, fuel, rest, hfuel, hrest => by
      cases fuel with
      | zero => exact absurd hfuel (Nat.not_lt_zero _)
      | succ k =>
          have hlens : (Json.serList (x :: y :: ys)).length =
              (Json.ser x).length + 1 + (Json.serList (y :: ys)).length := by
            rw [serList_cons2]
            simp only [List.length_append, List.length_cons]
            omega
          have hfx : (Json.ser x).length < k := by omega
          have hfy : (Json.serList (y :: ys)).length < k := by omega
          have hv := parse_ser x k (',' :: (Json.serList (y :: ys) ++ rest)) hfx (by rfl)
          have hrec := parse_serList y ys k rest hfy hrest
          rw [serList_cons2, List.append_assoc,
            show (',' :: Json.serList (y :: ys)) ++ rest =
              ',' :: (Json.serList (y :: ys) ++ rest) from by simp,
            parseElemsF.eq_def]
          simp [skipWs, isWsChar, hv, hrec]

theorem parse_serPairs : ∀ (f : String × Json) (fs : List (String × Json))
    (fuel : Nat) (rest : List Char),
    (Json.serPairs (f :: fs)).length < fuel → followOkB rest = true →
    parseFieldsF fuel (Json.serPairs (f :: fs) ++ rest) = some (f :: fs, rest)
  | (kk, vv), [], fuel, rest, hfuel, hrest => by
      cases fuel with
      | zero => exact absurd hfuel (Nat.not_lt_zero _)
      | succ k =>
          have hlens : (Json.serPairs [(kk, vv)]).length =
              (strLit kk).length + 1 + (Json.ser vv).length + 1 := by
            rw [serPairs_single]
            simp only [List.length_append, List.length_cons, List.length_nil]
            omega
          have hfv : (Json.ser vv).length < k := by
            have h2 : 2 ≤ (strLit kk).length := by
              rw [strLit]
              simp
            omega
          have hstr := parseStringBody_escape kk.data
            (':' :: (Json.ser vv ++ '\x7d' :: rest))
          have hv := parse_ser vv k ('\x7d' :: rest) hfv (by rfl)
          rw [show Json.serPairs [(kk, vv)] ++ rest =
              '"' :: (escapeChars kk.data ++ '"' ::
                (':' :: (Json.ser vv ++ '\x7d' :: rest))) from by
            rw [serPairs_single, strLit]
            simp,
            parseFieldsF.eq_def]
          simp [skipWs, isWsChar, hstr, hv]
  | (kk, vv), g :: gs, fuel, rest, hfuel, hrest => by
      cases fuel with
      | zero => exact absurd hfuel (Nat.not_lt_zero _)
      | succ k =>
          have hlens : (Json.serPairs ((kk, vv) :: g :: gs)).length =
              (strLit kk).length + 1 + (Json.ser vv).length + 1 +
                (Json.serPairs (g :: gs)).length := by
            rw [serPairs_cons2]
            simp only [List.length_append, List.length_cons, List.length_nil]
            omega
          have h2 : 2 ≤ (strLit kk).length := by
            rw [strLit]
            simp
          have hfv : (Json.ser vv).length < k := by omega
          have hfg : (Json.serPairs (g :: gs)).length < k := by omega
          have hstr := parseStringBody_escape kk.data
            (':' :: (Json.ser vv ++ ',' :: (Json.serPairs (g :: gs) ++ rest)))
          have hv := parse_ser vv k
            (',' :: (Json.serPairs (g :: gs) ++ rest)) hfv (by rfl)
          have hrec := parse_serPairs g gs k rest hfg hrest
          rw [show Json.serPairs ((kk, vv) :: g :: gs) ++ rest =
              '"' :: (escapeChars kk.data ++ '"' ::
                (':' :: (Json.ser vv ++ ',' ::
                  (Json.serPairs (g :: gs) ++ rest)))) from by
            rw [serPairs_cons2, strLit]
            simp,
            parseFieldsF.eq_def]
          simp [skipWs, isWsChar, hstr, hv, hrec]

end

theorem parseTopJson_ser (v : Json) : parseTopJson (Json.ser v) = some v := by
  have h := parse_ser v ((Json.ser v).length + 1) [] (by omega) rfl
  rw [List.append_nil] at h
  rw [parseTopJson, h]
  simp [skipWs]

/-! ### Lemmas: the derived codecs invert serialization -/

theorem i32Ok_spec {n : Int} (h : i32Ok n = true) :
    -2147483648 ≤ n ∧ n < 2147483648 := by
  simpa [i32Ok] using h

theorem i32FromJson_num {n : Int} (h : i32Ok n = true) :
    i32FromJson (.num n) = some n := by
  have hb := i32Ok_spec h
  rw [i32FromJson, if_pos hb]

theorem usizeFromJson_num {n : Nat} (h : usizeOk n = true) :
    usizeFromJson (.num (n : Int)) = some n := by
  have hb : n < 18446744073709551616 := by simpa [usizeOk] using h
  rw [usizeFromJson, if_pos (show 0 ≤ (n : Int) ∧
    (n : Int).toNat < 18446744073709551616 from ⟨by omega, by simpa using hb⟩)]
  simp

theorem requestId_fromJson_toJson (id : RequestId) (h : id.idRepr.wfB = true) :
    RequestId.fromJson id.toJson = some id := by
  cases id with
  | mk repr =>
      cases repr with
      | i32 n =>
          have hb : i32Ok n = true := by simpa [IdRepr.wfB] using h
          rw [RequestId.toJson]
          simp only [IdRepr.toJson]
          rw [RequestId.fromJson, i32FromJson_num hb]
          intro s hc
          exact Json.noConfusion hc
      | string s =>
          rw [RequestId.toJson]
          simp only [IdRepr.toJson]
          rw [RequestId.fromJson]
          simp [i32FromJson]

theorem optionBindConstNone {α β : Type} (x : Option α) :
    (x >>= fun _ => (none : Option β)) = none := by
  cases x <;> rfl

theorem completionContext_fromJson_none {fs : List (String × Json)}
    (h : lookupField fs "line" = none) :
    CompletionContext.fromJson (.obj fs) = none := by
  rw [CompletionContext.fromJson, h]
  rfl

theorem ResolveContext.fromJson_none_lsid {fs : List (String × Json)}
    (h : lookupField fs "language-server-id" = none) :
    ResolveContext.fromJson (.obj fs) = none := by
  rw [ResolveContext.fromJson, h]
  rfl

theorem ResolveContext.fromJson_none_start {fs : List (String × Json)}
    (h : lookupField fs "start" = none) :
    ResolveContext.fromJson (.obj fs) = none := by
  rw [ResolveContext.fromJson, h]
  show (lookupField fs "language-server-id" >>= usizeFromJson) >>=
    (fun lsid => none >>= fun s => (lookupField fs "end" >>= i32FromJson) >>=
      fun e => some ⟨lsid, s, e⟩) = none
  generalize lookupField fs "language-server-id" >>= usizeFromJson = a
  cases a <;> rfl

theorem commonContext_fromJson_none {fs : List (String × Json)}
    (h : lookupField fs "language-server-id" = none) :
    CommonContext.fromJson (.obj fs) = none := by
  rw [CommonContext.fromJson, h]
  rfl

/-- Step lemmas for the ordered variant trial of the untagged `Context`. -/
theorem Context.fromJson_of_completion {j : Json} {r : CompletionContext}
    (h1 : CompletionContext.fromJson j = some r) :
    Context.fromJson j = some (.completionContext r) := by
  rw [Context.fromJson, h1]

theorem Context.fromJson_of_resolve {j : Json} {r : ResolveContext}
    (h1 : CompletionContext.fromJson j = none)
    (h2 : ResolveContext.fromJson j = some r) :
    Context.fromJson j = some (.resolveContext r) := by
  rw [Context.fromJson, h1, h2]

theorem Context.fromJson_of_common {j : Json} {r : CommonContext}
    (h1 : CompletionContext.fromJson j = none)
    (h2 : ResolveContext.fromJson j = none)
    (h3 : CommonContext.fromJson j = some r) :
    Context.fromJson j = some (.commonContext r) := by
  rw [Context.fromJson, h1, h2, h3]

theorem Context.fromJson_of_workspace {j : Json} {r : WorkspaceContext}
    (h1 : CompletionContext.fromJson j = none)
    (h2 : ResolveContext.fromJson j = none)
    (h3 : CommonContext.fromJson j = none)
    (h4 : WorkspaceContext.fromJson j = some r) :
    Context.fromJson j = some (.workspaceContext r) := by
  rw [Context.fromJson, h1, h2, h3, h4]
  rfl

theorem resolveContext_fields_fromJson (c : ResolveContext)
    (h1 : usizeOk c.language_server_id = true) (h2 : i32Ok c.start = true)
    (h3 : i32Ok c.stop = true) :
    ResolveContext.fromJson (.obj [("language-server-id",
      .num c.language_server_id), ("start", .num c.start),
      ("end", .num c.stop)]) = some c := by
  rw [ResolveContext.fromJson]
  simp [lookupField, usizeFromJson_num h1, i32FromJson_num h2, i32FromJson_num h3]

theorem resolveContext_fields_no_line (c : ResolveContext) :
    CompletionContext.fromJson (.obj [("language-server-id",
      .num c.language_server_id), ("start", .num c.start),
      ("end", .num c.stop)]) = none :=
  completionContext_fromJson_none (by simp [lookupField])

theorem commonContext_fields_fromJson (c : CommonContext)
    (h1 : usizeOk c.language_server_id = true) :
    CommonContext.fromJson (.obj [("language-server-id",
      .num c.language_server_id)]) = some c := by
  rw [CommonContext.fromJson]
  simp [lookupField, usizeFromJson_num h1]

theorem commonContext_fields_no_line (c : CommonContext) :
    CompletionContext.fromJson (.obj [("language-server-id",
      .num c.language_server_id)]) = none :=
  completionContext_fromJson_none (by simp [lookupField])

theorem commonContext_fields_no_start (c : CommonContext) :
    ResolveContext.fromJson (.obj [("language-server-id",
      .num c.language_server_id)]) = none :=
  ResolveContext.fromJson_none_start (by simp [lookupField])

theorem Context.fromJson_toJson_completion (c : CompletionContext)
    (h : Context.wfB (.completionContext c) = true) :
    Context.fromJson (Context.toJson (.completionContext c)) =
      some (.completionContext c) := by
  have hwf := h
  simp only [Context.wfB, Bool.and_eq_true] at hwf
  rw [show Context.toJson (.completionContext c) = .obj [("line", .str c.line),
        ("prefix", .str c.prefixText), ("startPoint", .num c.start_point),
        ("boundsStart", .num c.bounds_start),
        ("triggerKind", .num c.trigger_kind)] from rfl]
  exact Context.fromJson_of_completion (by
    rw [CompletionContext.fromJson]
    simp [lookupField, stringFromJson, i32FromJson_num hwf.1.1,
      i32FromJson_num hwf.1.2, i32FromJson_num hwf.2])

theorem Context.fromJson_toJson_resolve (c : ResolveContext)
    (h : Context.wfB (.resolveContext c) = true) :
    Context.fromJson (Context.toJson (.resolveContext c)) =
      some (.resolveContext c) := by
  have hwf := h
  simp only [Context.wfB, Bool.and_eq_true] at hwf
  rw [show Context.toJson (.resolveContext c) = .obj [("language-server-id",
        .num c.language_server_id), ("start", .num c.start),
        ("end", .num c.stop)] from rfl]
  exact Context.fromJson_of_resolve (resolveContext_fields_no_line c)
    (resolveContext_fields_fromJson c hwf.1.1 hwf.1.2 hwf.2)

theorem Context.fromJson_toJson_common (c : CommonContext)
    (h : Context.wfB (.commonContext c) = true) :
    Context.fromJson (Context.toJson (.commonContext c)) =
      some (.commonContext c) := by
  have hwf := h
  simp only [Context.wfB] at hwf
  rw [show Context.toJson (.commonContext c) = .obj [("language-server-id",
        .num c.language_server_id)] from rfl]
  exact Context.fromJson_of_common (commonContext_fields_no_line c)
    (commonContext_fields_no_start c) (commonContext_fields_fromJson c hwf)

theorem Context.fromJson_toJson_workspace (c : WorkspaceContext) :
    Context.fromJson (Context.toJson (.workspaceContext c)) =
      some (.workspaceContext c) := by
  rw [show Context.toJson (.workspaceContext c) = .obj [("workspace-root",
        .str c.workspace_root)] from rfl]
  exact Context.fromJson_of_workspace
    (completionContext_fromJson_none (by simp [lookupField]))
    (ResolveContext.fromJson_none_lsid (by simp [lookupField]))
    (commonContext_fromJson_none (by simp [lookupField]))
    (by
      rw [WorkspaceContext.fromJson]
      simp [lookupField, stringFromJson])

theorem context_fromJson_toJson (c : Context) (h : c.wfB = true) :
    Context.fromJson c.toJson = some c := by
  cases c with
  | completionContext c => exact Context.fromJson_toJson_completion c h
  | resolveContext c => exact Context.fromJson_toJson_resolve c h
  | commonContext c => exact Context.fromJson_toJson_common c h
  | workspaceContext c => exact Context.fromJson_toJson_workspace c

theorem context_toJson_ne_null (c : Context) : ¬Context.toJson c = Json.null := by
  cases c <;> exact fun h => Json.noConfusion h

theorem optFieldL_some {α : Type} {dec : Json → Option α} {fs : List (String × Json)}
    {name : String} {v : Json} {a : α} (h : lookupField fs name = some v)
    (hv : ¬v = Json.null) (hd : dec v = some a) :
    optFieldL dec fs name = some (some a) := by
  rw [optFieldL, h]
  simp [hv, hd]

theorem params_fromJson_toJson (p : Params) (h : p.wfB = true) :
    Params.fromJson p.toJson = some p := by
  obtain ⟨uri, ctx, pv⟩ := p
  cases ctx with
  | none =>
      by_cases hp : pv = Json.null
      · subst hp
        rw [show Params.toJson ⟨uri, none, Json.null⟩ =
            .obj [("uri", optToJson Json.str uri), ("context", Json.null)] from rfl]
        rw [Params.fromJson]
        cases uri with
        | none => rfl
        | some s => rfl
      · rw [show Params.toJson ⟨uri, none, pv⟩ =
            .obj [("uri", optToJson Json.str uri), ("context", Json.null),
              ("params", pv)] from by
          rw [Params.toJson]
          simp [hp, optToJson]]
        rw [Params.fromJson]
        cases uri with
        | none => rfl
        | some s => rfl
  | some c =>
      have hcwf : c.wfB = true := by
        have h2 := h
        simp only [Params.wfB, Bool.and_eq_true] at h2
        exact h2.1
      by_cases hp : pv = Json.null
      · subst hp
        rw [show Params.toJson ⟨uri, some c, Json.null⟩ =
            .obj [("uri", optToJson Json.str uri),
              ("context", Context.toJson c)] from rfl]
        rw [Params.fromJson]
        rw [optFieldL_some (show lookupField [("uri", optToJson Json.str uri),
            ("context", Context.toJson c)] "context" = some (Context.toJson c)
            from rfl) (context_toJson_ne_null c) (context_fromJson_toJson c hcwf)]
        cases uri with
        | none => rfl
        | some s => rfl
      · rw [show Params.toJson ⟨uri, some c, pv⟩ =
            .obj [("uri", optToJson Json.str uri), ("context", Context.toJson c),
              ("params", pv)] from by
          rw [Params.toJson]
          simp [hp, optToJson]]
        rw [Params.fromJson]
        rw [optFieldL_some (show lookupField [("uri", optToJson Json.str uri),
            ("context", Context.toJson c), ("params", pv)] "context" =
            some (Context.toJson c)
            from rfl) (context_toJson_ne_null c) (context_fromJson_toJson c hcwf)]
        cases uri with
        | none => rfl
        | some s => rfl

theorem someBind {α β : Type} (a : α) (f : α → Option β) :
    (some a >>= f) = f a := rfl

theorem responseError_fromJson_toJson (e : ResponseError) (h : i32Ok e.code = true)
    (hd : ¬e.data = some Json.null) :
    ResponseError.fromJson e.toJson = some e := by
  obtain ⟨code, msg, data⟩ := e
  have hc : i32Ok code = true := h
  cases data with
  | none =>
      rw [show ResponseError.toJson ⟨code, msg, none⟩ =
        .obj [("code", .num code), ("message", .str msg)] from rfl]
      rw [ResponseError.fromJson]
      rw [show lookupField [("code", Json.num code), ("message", .str msg)]
        "code" = some (Json.num code) from rfl]
      simp only [someBind]
      rw [i32FromJson_num hc]
      rfl
  | some d =>
      have hne : ¬d = Json.null := by simpa using hd
      rw [show ResponseError.toJson ⟨code, msg, some d⟩ =
        .obj [("code", .num code), ("message", .str msg), ("data", d)] from rfl]
      rw [ResponseError.fromJson]
      rw [show lookupField [("code", Json.num code), ("message", .str msg),
        ("data", d)] "code" = some (Json.num code) from rfl]
      simp only [someBind]
      rw [i32FromJson_num hc]
      rw [optFieldL_some (show lookupField [("code", Json.num code),
        ("message", .str msg), ("data", d)] "data" = some d from rfl) hne rfl]
      rfl

theorem responseError_toJson_ne_null (e : ResponseError) :
    ¬ResponseError.toJson e = Json.null := by
  exact fun h => Json.noConfusion h

theorem RequestId.fromJson_bind {fs : List (String × Json)} {id : RequestId}
    {α : Type} (f : RequestId → Option α)
    (h1 : lookupField fs "id" = some id.toJson) (h2 : id.idRepr.wfB = true) :
    ((lookupField fs "id" >>= RequestId.fromJson) >>= f) = f id := by
  rw [h1]
  simp only [someBind]
  rw [requestId_fromJson_toJson id h2]
  simp only [someBind]

theorem optFieldL_congr {α : Type} {dec : Json → Option α}
    {fs1 fs2 : List (String × Json)} {name : String}
    (h : lookupField fs1 name = lookupField fs2 name) :
    optFieldL dec fs1 name = optFieldL dec fs2 name := by
  rw [optFieldL, optFieldL, h]

theorem response_fromJson_fields (r : Response) (h : r.wfB = true)
    (hno : Message.noExplicitNullOpt (.response r) = true) (pre : List (String × Json))
    (hpre : ∀ k v, (k, v) ∈ pre → k ≠ "id" ∧ k ≠ "result" ∧ k ≠ "error") :
    Response.fromJson (.obj (pre ++ r.fieldsJson)) = some r := by
  obtain ⟨id, result, error⟩ := r
  have hid : id.idRepr.wfB = true := by
    simp only [Response.wfB, Bool.and_eq_true] at h
    exact h.1.1
  have herr : ∀ e, error = some e → i32Ok e.code = true ∧ ¬e.data = some Json.null := by
    intro e he
    subst he
    simp only [Response.wfB, Bool.and_eq_true] at h
    have h1 := h.2
    simp only [ResponseError.wfB, Bool.and_eq_true] at h1
    refine ⟨h1.1, ?_⟩
    simp only [Message.noExplicitNullOpt, Bool.and_eq_true] at hno
    simpa using hno.2
  have hlook : ∀ name : String, name = "id" ∨ name = "result" ∨ name = "error" →
      lookupField (pre ++ Response.fieldsJson ⟨id, result, error⟩) name =
      lookupField (Response.fieldsJson ⟨id, result, error⟩) name := by
    intro name hname
    induction pre with
    | nil => rfl
    | cons kv rest ih =>
        obtain ⟨k, v⟩ := kv
        have hk := hpre k v (by simp)
        rw [List.cons_append, lookupField]
        have hkne : ¬k = name := by
          rcases hname with rfl | rfl | rfl
          · exact hk.1
          · exact hk.2.1
          · exact hk.2.2
        rw [if_neg hkne]
        exact ih (fun k2 v2 hm => hpre k2 v2 (by simp [hm]))
  have hres : ¬result = some Json.null := by
    simp only [Message.noExplicitNullOpt, Bool.and_eq_true] at hno
    simpa using hno.1
  rw [Response.fromJson]
  rw [hlook "id" (Or.inl rfl)]
  rw [optFieldL_congr (hlook "result" (Or.inr (Or.inl rfl)))]
  rw [optFieldL_congr (hlook "error" (Or.inr (Or.inr rfl)))]
  cases result with
  | none =>
      cases error with
      | none =>
          rw [RequestId.fromJson_bind _ (show lookupField
            (Response.fieldsJson ⟨id, none, none⟩) "id" =
            some id.toJson from rfl) hid]
          rfl
      | some e =>
          rw [RequestId.fromJson_bind _ (show lookupField
            (Response.fieldsJson ⟨id, none, some e⟩) "id" =
            some id.toJson from rfl) hid]
          rw [optFieldL_some (show lookupField
            (Response.fieldsJson ⟨id, none, some e⟩) "error" =
            some e.toJson from rfl) (responseError_toJson_ne_null e)
            (responseError_fromJson_toJson e (herr e rfl).1 (herr e rfl).2)]
          rfl
  | some v =>
      have hv : ¬v = Json.null := by simpa using hres
      cases error with
      | none =>
          rw [RequestId.fromJson_bind _ (show lookupField
            (Response.fieldsJson ⟨id, some v, none⟩) "id" =
            some id.toJson from rfl) hid]
          rw [optFieldL_some (show lookupField
            (Response.fieldsJson ⟨id, some v, none⟩) "result" =
            some v from rfl) hv rfl]
          rfl
      | some e =>
          rw [RequestId.fromJson_bind _ (show lookupField
            (Response.fieldsJson ⟨id, some v, some e⟩) "id" =
            some id.toJson from rfl) hid]
          rw [optFieldL_some (show lookupField
            (Response.fieldsJson ⟨id, some v, some e⟩) "result" =
            some v from rfl) hv rfl]
          rw [optFieldL_some (show lookupField
            (Response.fieldsJson ⟨id, some v, some e⟩) "error" =
            some e.toJson from rfl) (responseError_toJson_ne_null e)
            (responseError_fromJson_toJson e (herr e rfl).1 (herr e rfl).2)]
          rfl

theorem lookupField_append_skip {pre fields : List (String × Json)} {name : String}
    (hpre : ∀ k v, (k, v) ∈ pre → ¬k = name) :
    lookupField (pre ++ fields) name = lookupField fields name := by
  induction pre with
  | nil => rfl
  | cons kv rest ih =>
      obtain ⟨k, v⟩ := kv
      rw [List.cons_append, lookupField, if_neg (hpre k v (by simp))]
      exact ih fun k2 v2 hm => hpre k2 v2 (by simp [hm])

theorem request_fromJson_fields (r : Request) (h : r.wfB = true)
    (pre : List (String × Json))
    (hpre : ∀ k v, (k, v) ∈ pre → k ≠ "id" ∧ k ≠ "method" ∧ k ≠ "params") :
    Request.fromJson (.obj (pre ++ r.fieldsJson)) = some r := by
  obtain ⟨id, method, params⟩ := r
  simp only [Request.wfB, Bool.and_eq_true] at h
  rw [Request.fromJson]
  rw [lookupField_append_skip (fun k v hm => (hpre k v hm).1)]
  rw [lookupField_append_skip (fun k v hm => (hpre k v hm).2.1)]
  rw [lookupField_append_skip (fun k v hm => (hpre k v hm).2.2)]
  rw [RequestId.fromJson_bind _ (show lookupField
    (Request.fieldsJson ⟨id, method, params⟩) "id" = some id.toJson from rfl) h.1]
  rw [show lookupField (Request.fieldsJson ⟨id, method, params⟩) "method" =
    some (Json.str method) from rfl]
  simp only [someBind]
  rw [show stringFromJson (Json.str method) = some method from rfl]
  simp only [someBind]
  rw [show lookupField (Request.fieldsJson ⟨id, method, params⟩) "params" =
    some (Params.toJson params) from rfl]
  simp only [someBind]
  rw [params_fromJson_toJson params h.2]
  rfl

theorem notification_fromJson_fields (n : Notification) (h : n.wfB = true)
    (pre : List (String × Json))
    (hpre : ∀ k v, (k, v) ∈ pre → k ≠ "method" ∧ k ≠ "params") :
    Notification.fromJson (.obj (pre ++ n.fieldsJson)) = some n := by
  obtain ⟨method, params⟩ := n
  rw [Notification.fromJson]
  rw [lookupField_append_skip (fun k v hm => (hpre k v hm).1)]
  rw [lookupField_append_skip (fun k v hm => (hpre k v hm).2)]
  rw [show lookupField (Notification.fieldsJson ⟨method, params⟩) "method" =
    some (Json.str method) from rfl]
  simp only [someBind]
  rw [show stringFromJson (Json.str method) = some method from rfl]
  simp only [someBind]
  rw [show lookupField (Notification.fieldsJson ⟨method, params⟩) "params" =
    some (Params.toJson params) from rfl]
  simp only [someBind]
  rw [params_fromJson_toJson params h]
  rfl

theorem request_fromJson_none_id {fs : List (String × Json)}
    (h : lookupField fs "id" = none) : Request.fromJson (.obj fs) = none := by
  rw [Request.fromJson, h]
  rfl

theorem Request.fromJson_none_method {fs : List (String × Json)}
    (h : lookupField fs "method" = none) : Request.fromJson (.obj fs) = none := by
  rw [Request.fromJson, h]
  show (lookupField fs "id" >>= RequestId.fromJson) >>=
    (fun i => none >>= stringFromJson >>= fun m =>
      (lookupField fs "params" >>= Params.fromJson) >>= fun p =>
        some ⟨i, m, p⟩) = none
  generalize lookupField fs "id" >>= RequestId.fromJson = a
  cases a <;> rfl

theorem response_fromJson_none_id {fs : List (String × Json)}
    (h : lookupField fs "id" = none) : Response.fromJson (.obj fs) = none := by
  rw [Response.fromJson, h]
  rfl

/-- The untagged decode of a full envelope restores the message, provided
the message is well formed and stores no explicit null in an optional
JSON-value slot. -/
theorem Message.fromJson_envelope (m : Message) (h : m.wfB = true)
    (hn : m.noExplicitNullOpt = true) :
    Message.fromJson m.envelopeJson = some m := by
  cases m with
  | request r =>
      rw [show Message.envelopeJson (.request r) =
        .obj ([("jsonrpc", Json.str "2.0")] ++ r.fieldsJson) from rfl]
      rw [Message.fromJson]
      rw [request_fromJson_fields r h [("jsonrpc", Json.str "2.0")] (by
        intro k v hm
        simp only [List.mem_singleton, Prod.mk.injEq] at hm
        rw [hm.1]
        refine ⟨by decide, by decide, by decide⟩)]
  | response r =>
      rw [show Message.envelopeJson (.response r) =
        .obj ([("jsonrpc", Json.str "2.0")] ++ r.fieldsJson) from rfl]
      rw [Message.fromJson]
      rw [Request.fromJson_none_method (by
        obtain ⟨id, result, error⟩ := r
        cases result <;> cases error <;> rfl)]
      rw [response_fromJson_fields r h hn [("jsonrpc", Json.str "2.0")] (by
        intro k v hm
        simp only [List.mem_singleton, Prod.mk.injEq] at hm
        rw [hm.1]
        refine ⟨by decide, by decide, by decide⟩)]
  | notification n =>
      rw [show Message.envelopeJson (.notification n) =
        .obj ([("jsonrpc", Json.str "2.0")] ++ n.fieldsJson) from rfl]
      rw [Message.fromJson]
      rw [request_fromJson_none_id (by
        obtain ⟨method, params⟩ := n
        rfl)]
      rw [response_fromJson_none_id (by
        obtain ⟨method, params⟩ := n
        rfl)]
      rw [notification_fromJson_fields n h [("jsonrpc", Json.str "2.0")] (by
        intro k v hm
        simp only [List.mem_singleton, Prod.mk.injEq] at hm
        rw [hm.1]
        refine ⟨by decide, by decide⟩)]
      rfl

/-! ### Lemmas: frame reading -/

theorem splitLine_upto {pre : List Char} (h : ¬ '\n' ∈ pre) (rest : List Char) :
    splitLine (pre ++ '\n' :: rest) = (pre ++ ['\n'], rest) := by
  induction pre with
  | nil => simp [splitLine]
  | cons c cs ih =>
      have hc : ¬c = '\n' := by
        intro he
        exact h (by simp [he])
      rw [List.cons_append, splitLine]
      simp only [hc, if_false]
      rw [ih (fun hm => h (by simp [hm]))]
      simp

theorem endsWithCRLF_concat (x : List Char) :
    endsWithCRLF (x ++ ['\r', '\n']) = true := by
  rw [endsWithCRLF]
  simp

theorem endsWithCRLF_decomp {l : List Char} (h : endsWithCRLF l = true) :
    l = l.dropLast.dropLast ++ ['\r', '\n'] := by
  rw [endsWithCRLF] at h
  rcases hr : l.reverse with _ | ⟨a, _ | ⟨b, t⟩⟩
  · rw [hr] at h
    simp at h
  · rw [hr] at h
    simp at h
  · rw [hr] at h
    simp only at h
    have hab : a = '\n' ∧ b = '\r' := by simpa using h
    have hl : l = t.reverse ++ [b, a] := by
      have := congrArg List.reverse hr
      simpa using this
    rw [hl, hab.1, hab.2]
    rw [show t.reverse ++ ['\r', '\n'] = (t.reverse ++ ['\r']) ++ ['\n'] by simp]
    rw [List.dropLast_concat, List.dropLast_concat]
    simp

theorem endsWithCRLF_length {l : List Char} (h : endsWithCRLF l = true) :
    2 ≤ l.length := by
  have hd := endsWithCRLF_decomp h
  rw [hd]
  simp

theorem splitSep_append {pre : List Char} (h : hasSepB pre = false) (v : List Char) :
    splitSep (pre ++ ':' :: ' ' :: v) = some (pre, v) := by
  induction pre with
  | nil => simp [splitSep]
  | cons c cs ih =>
      rw [hasSepB] at h
      simp only [Bool.or_eq_false_iff, Bool.and_eq_false_iff] at h
      rw [List.cons_append, splitSep]
      have hcond : ¬(c = ':' ∧ (cs ++ ':' :: ' ' :: v).head? = some ' ') := by
        rintro ⟨hc1, hc2⟩
        rcases h.1 with h1 | h1
        · simp at h1
          exact h1 hc1
        · cases cs with
          | nil => simp at hc2
          | cons d ds =>
              simp at hc2 h1
              exact h1 hc2
      rw [if_neg hcond, ih h.2]
      simp

theorem lineSize_of_not_cl {size : Option Nat} {l : List Char}
    (h : isContentLengthLineB l = false) : lineSize size l = size := by
  rw [isContentLengthLineB] at h
  rw [lineSize]
  rcases hs : splitSep l.dropLast.dropLast with _ | ⟨name, value⟩
  · rfl
  · rw [hs] at h
    simp only at h
    simp [h]

theorem readHeaderLoopF_step {l : List Char} (hl : headerLineOkB l = true)
    (fuel : Nat) (size : Option Nat) (rest : List Char) :
    readHeaderLoopF (fuel + 1) size (l ++ rest) =
      readHeaderLoopF fuel (lineSize size l) rest := by
  rw [headerLineOkB] at hl
  simp only [Bool.and_eq_true, decide_eq_true_eq] at hl
  obtain ⟨⟨⟨hE, hNoLF⟩, hNE⟩, hSep⟩ := hl
  have hdec := endsWithCRLF_decomp hE
  have hlsplit : splitLine (l ++ rest) = (l, rest) := by
    rw [hdec]
    rw [show (l.dropLast.dropLast ++ ['\r', '\n']) ++ rest =
      (l.dropLast.dropLast ++ ['\r']) ++ '\n' :: rest by simp]
    rw [splitLine_upto (by
      intro hm
      rcases List.mem_append.mp hm with hm2 | hm2
      · exact hNoLF hm2
      · simp at hm2)]
    simp
  rcases hb : l.dropLast.dropLast with _ | ⟨b0, bs⟩
  · exact absurd hb hNE
  · rw [show l ++ rest = b0 :: (bs ++ '\r' :: '\n' :: rest) from by
      conv_lhs => rw [hdec]
      rw [hb]
      simp]
    rw [readHeaderLoopF.eq_def]
    have hsp : splitLine (b0 :: (bs ++ '\r' :: '\n' :: rest)) = (l, rest) := by
      rw [show b0 :: (bs ++ '\r' :: '\n' :: rest) = l ++ rest from by
        conv_rhs => rw [hdec]
        rw [hb]
        simp]
      exact hlsplit
    simp only [hsp, hE, if_true]
    rw [if_neg hNE]
    rw [headerSepOkB] at hSep
    rcases hsv : splitSep l.dropLast.dropLast with _ | ⟨name, value⟩
    · rw [hsv] at hSep
      simp at hSep
    · simp only [hsv] at hSep
      simp only [hsv]
      rw [lineSize]
      simp only [hsv]
      by_cases hcl : eqIgnoreAsciiCase name "Content-Length".data = true
      · rw [hcl] at hSep
        simp only [if_true] at hSep
        rcases hn : parseUsize value with _ | n
        · rw [hn] at hSep
          simp at hSep
        · simp only [hcl, if_true, hn]
      · have hcl2 : eqIgnoreAsciiCase name "Content-Length".data = false :=
          Bool.eq_false_iff.mpr hcl
        simp only [hcl2, if_false, Bool.false_eq_true]

theorem readHeaderLoopF_eof (fuel : Nat) (size : Option Nat) :
    readHeaderLoopF (fuel + 1) size [] = .ok none := by
  rw [readHeaderLoopF.eq_def]

theorem readHeaderLoopF_blank (fuel : Nat) (size : Option Nat) (rest : List Char) :
    readHeaderLoopF (fuel + 1) size ('\r' :: '\n' :: rest) =
      .ok (some (size, rest)) := by
  rw [readHeaderLoopF.eq_def]
  simp only [show splitLine ('\r' :: '\n' :: rest) = (['\r', '\n'], rest) from by
    rw [show ('\r' :: '\n' :: rest : List Char) = ['\r'] ++ '\n' :: rest from rfl]
    rw [splitLine_upto (by decide)]
    simp]
  simp
  decide

theorem headerLineOkB_two_le {l : List Char} (h : headerLineOkB l = true) :
    2 ≤ l.length := by
  rw [headerLineOkB] at h
  simp only [Bool.and_eq_true] at h
  exact endsWithCRLF_length h.1.1.1

theorem readHeaderLoopF_flatten (lines : List (List Char))
    (hall : ∀ l ∈ lines, headerLineOkB l = true) :
    ∀ fuel (size : Option Nat) (s : List Char),
      lines.flatten.length + s.length < fuel →
      readHeaderLoopF fuel size (lines.flatten ++ s) =
        readHeaderLoopF (fuel - lines.length) (lines.foldl lineSize size) s := by
  induction lines with
  | nil =>
      intro fuel size s h
      simp
  | cons l ls ih =>
      intro fuel size s h
      obtain ⟨f, rfl⟩ : ∃ f, fuel = f + 1 := ⟨fuel - 1, by omega⟩
      have hlen : 2 ≤ l.length := headerLineOkB_two_le (hall l (by simp))
      have hb : ls.flatten.length + s.length < f := by
        simp only [List.flatten_cons, List.length_append] at h
        omega
      rw [show (l :: ls).flatten ++ s = l ++ (ls.flatten ++ s) by simp]
      rw [readHeaderLoopF_step (hall l (by simp)) f size (ls.flatten ++ s)]
      rw [ih (fun x hx => hall x (by simp [hx])) f (lineSize size l) s hb]
      rw [show f + 1 - (l :: ls).length = f - ls.length by simp]
      rw [List.foldl_cons]

theorem foldl_lineSize_not_cl (lines : List (List Char))
    (h : ∀ l ∈ lines, isContentLengthLineB l = false) :
    ∀ size : Option Nat, lines.foldl lineSize size = size := by
  induction lines with
  | nil => intro size; rfl
  | cons l ls ih =>
      intro size
      rw [List.foldl_cons, lineSize_of_not_cl (h l (by simp))]
      exact ih (fun x hx => h x (by simp [hx])) size

theorem lines_length_le_flatten (lines : List (List Char))
    (hall : ∀ l ∈ lines, headerLineOkB l = true) :
    lines.length ≤ lines.flatten.length := by
  induction lines with
  | nil => simp
  | cons l ls ih =>
      have hlen : 2 ≤ l.length := headerLineOkB_two_le (hall l (by simp))
      have := ih (fun x hx => hall x (by simp [hx]))
      simp only [List.flatten_cons, List.length_append, List.length_cons]
      omega

theorem takeBytes_exact (p t : List Char) :
    takeBytes (byteLen p) (p ++ t) = .ok (p, t) := by
  induction p with
  | nil =>
      rw [takeBytes.eq_def]
      simp [byteLen]
  | cons c cs ih =>
      have hpos : 1 ≤ c.utf8Size := Char.utf8Size_pos c
      rw [takeBytes.eq_def]
      have h0 : ¬(byteLen (c :: cs) = 0) := by rw [byteLen]; omega
      have hle : c.utf8Size ≤ byteLen (c :: cs) := by
        rw [byteLen]
        exact Nat.le_add_right _ _
      have hsub : byteLen (c :: cs) - c.utf8Size = byteLen cs := by
        rw [byteLen]
        omega
      simp [h0, hle, hsub, ih]

/-- Clean end-of-stream after any number of complete well-formed header
lines: the frame read returns `Ok(None)`. -/
theorem read_msg_text_eof_lines (lines : List (List Char))
    (hall : ∀ l ∈ lines, headerLineOkB l = true) :
    read_msg_text lines.flatten = .ok none := by
  rw [read_msg_text]
  have hloop := readHeaderLoopF_flatten lines hall (lines.flatten.length + 1) none []
    (by simp)
  rw [List.append_nil] at hloop
  rw [hloop]
  have hk := lines_length_le_flatten lines hall
  obtain ⟨m, hm⟩ : ∃ m, lines.flatten.length + 1 - lines.length = m + 1 :=
    ⟨lines.flatten.length - lines.length, by omega⟩
  rw [hm, readHeaderLoopF_eof]

/-- The header line `Content-Length: {n}\r\n` is well formed when the
value fits in a usize. -/
theorem headerLineOkB_cl (n : Nat) (h : n < 18446744073709551616) :
    headerLineOkB ("Content-Length: ".data ++ natToChars n ++ ['\r', '\n']) = true := by
  have hb2 : ("Content-Length: ".data ++ natToChars n ++ ['\r', '\n']).dropLast.dropLast
      = "Content-Length: ".data ++ natToChars n := by
    rw [show "Content-Length: ".data ++ natToChars n ++ ['\r', '\n'] =
      (("Content-Length: ".data ++ natToChars n) ++ ['\r']) ++ ['\n'] by simp]
    rw [List.dropLast_concat, List.dropLast_concat]
  have hsep : splitSep ("Content-Length: ".data ++ natToChars n) =
      some ("Content-Length".data, natToChars n) := by
    rw [show "Content-Length: ".data ++ natToChars n =
      "Content-Length".data ++ ':' :: ' ' :: natToChars n from by simp]
    exact splitSep_append (by decide) (natToChars n)
  have hE : endsWithCRLF ("Content-Length: ".data ++ natToChars n ++ ['\r', '\n'])
      = true := by
    rw [show "Content-Length: ".data ++ natToChars n ++ ['\r', '\n'] =
      ("Content-Length: ".data ++ natToChars n) ++ ['\r', '\n'] by simp]
    exact endsWithCRLF_concat _
  have hNoLF : ¬ '\n' ∈ "Content-Length: ".data ++ natToChars n := by
    intro hm
    rcases List.mem_append.mp hm with hm2 | hm2
    · exact absurd hm2 (by decide)
    · have := allDigits_mem (natToChars_allDigits n) hm2
      exact absurd this (by decide)
  have hNE : ¬("Content-Length: ".data ++ natToChars n) = [] := by
    simp
  rw [headerLineOkB, hb2, hE, decide_eq_true hNoLF, decide_eq_true hNE, headerSepOkB]
  simp only [hsep]
  rw [if_pos (show eqIgnoreAsciiCase "Content-Length".data "Content-Length".data
    = true from by decide)]
  rw [parseUsize_natToChars n h]
  simp

theorem lineSize_cl (n : Nat) (h : n < 18446744073709551616) (size : Option Nat) :
    lineSize size ("Content-Length: ".data ++ natToChars n ++ ['\r', '\n']) = some n := by
  have hb2 : ("Content-Length: ".data ++ natToChars n ++ ['\r', '\n']).dropLast.dropLast
      = "Content-Length: ".data ++ natToChars n := by
    rw [show "Content-Length: ".data ++ natToChars n ++ ['\r', '\n'] =
      (("Content-Length: ".data ++ natToChars n) ++ ['\r']) ++ ['\n'] by simp]
    rw [List.dropLast_concat, List.dropLast_concat]
  have hsep : splitSep ("Content-Length: ".data ++ natToChars n) =
      some ("Content-Length".data, natToChars n) := by
    rw [show "Content-Length: ".data ++ natToChars n =
      "Content-Length".data ++ ':' :: ' ' :: natToChars n from by simp]
    exact splitSep_append (by decide) (natToChars n)
  rw [lineSize, hb2]
  simp only [hsep]
  rw [if_pos (by decide)]
  exact parseUsize_natToChars n h

/-- Reading a stream framed by `write_msg_text` recovers exactly the
payload, leaving the trailing stream content untouched. -/
theorem read_msg_text_frame (payload trailing : List Char)
    (h : byteLen payload < 18446744073709551616) :
    read_msg_text (contentLengthHeader (byteLen payload) ++ payload ++ trailing) =
      .ok (some (payload, trailing)) := by
  have hre : contentLengthHeader (byteLen payload) ++ payload ++ trailing =
      ("Content-Length: ".data ++ natToChars (byteLen payload) ++ ['\r', '\n']) ++
        ('\r' :: '\n' :: (payload ++ trailing)) := by
    rw [contentLengthHeader]
    simp
  rw [read_msg_text, hre]
  set l1 := "Content-Length: ".data ++ natToChars (byteLen payload) ++ ['\r', '\n']
    with hl1
  set s2 := '\r' :: '\n' :: (payload ++ trailing) with hs2
  have hfuel : (l1 ++ s2).length + 1 = l1.length + s2.length + 1 := by
    simp
  rw [hfuel]
  rw [show l1.length + s2.length + 1 = (l1.length + s2.length) + 1 from rfl]
  rw [readHeaderLoopF_step (headerLineOkB_cl (byteLen payload) h)]
  rw [lineSize_cl (byteLen payload) h]
  obtain ⟨m, hm⟩ : ∃ m, l1.length + s2.length = m + 1 :=
    ⟨l1.length + s2.length - 1, by simp [hs2]; omega⟩
  rw [hm, hs2, readHeaderLoopF_blank]
  simp [takeBytes_exact]

theorem dropLast2_concat (x : List Char) :
    (x ++ ['\r', '\n']).dropLast.dropLast = x := by
  rw [show x ++ ['\r', '\n'] = (x ++ ['\r']) ++ ['\n'] by simp]
  rw [List.dropLast_concat, List.dropLast_concat]

theorem readHeaderLoopF_badCRLF {s : List Char} (hne : s ≠ [])
    (hbad : endsWithCRLF (splitLine s).1 = false) (fuel : Nat) (size : Option Nat) :
    readHeaderLoopF (fuel + 1) size s =
      .error (.invalidData ("malformed header: " ++ String.mk (splitLine s).1)) := by
  cases s with
  | nil => exact absurd rfl hne
  | cons c cs =>
      rw [readHeaderLoopF.eq_def]
      simp only [hbad, Bool.false_eq_true, if_false]

theorem readHeaderLoopF_noSep {body : List Char} (hNoLF : ¬ '\n' ∈ body)
    (hNE : body ≠ []) (hsep : splitSep body = none)
    (fuel : Nat) (size : Option Nat) (rest : List Char) :
    readHeaderLoopF (fuel + 1) size (body ++ '\r' :: '\n' :: rest) =
      .error (.invalidData ("malformed header: " ++ String.mk body)) := by
  have hlsplit : splitLine ((body ++ ['\r', '\n']) ++ rest) = (body ++ ['\r', '\n'], rest) := by
    rw [show (body ++ ['\r', '\n']) ++ rest = (body ++ ['\r']) ++ '\n' :: rest by simp]
    rw [splitLine_upto (by
      intro hm
      rcases List.mem_append.mp hm with hm2 | hm2
      · exact hNoLF hm2
      · simp at hm2)]
    simp
  cases body with
  | nil => exact absurd rfl hNE
  | cons b0 bs =>
      rw [show (b0 :: bs) ++ '\r' :: '\n' :: rest = b0 :: (bs ++ '\r' :: '\n' :: rest)
        by simp]
      rw [readHeaderLoopF.eq_def]
      have hsp : splitLine (b0 :: (bs ++ '\r' :: '\n' :: rest)) =
          ((b0 :: bs) ++ ['\r', '\n'], rest) := by
        rw [show b0 :: (bs ++ '\r' :: '\n' :: rest) = ((b0 :: bs) ++ ['\r', '\n']) ++ rest
          by simp]
        exact hlsplit
      simp only [hsp, endsWithCRLF_concat, if_true, dropLast2_concat]
      rw [if_neg hNE]
      simp only [hsep]

theorem read_msg_text_badCRLF {s : List Char} (hne : s ≠ [])
    (hbad : endsWithCRLF (splitLine s).1 = false) :
    read_msg_text s =
      .error (.invalidData ("malformed header: " ++ String.mk (splitLine s).1)) := by
  rw [read_msg_text, readHeaderLoopF_badCRLF hne hbad]

theorem read_msg_text_noSep {body : List Char} (hNoLF : ¬ '\n' ∈ body)
    (hNE : body ≠ []) (hsep : splitSep body = none) (rest : List Char) :
    read_msg_text (body ++ '\r' :: '\n' :: rest) =
      .error (.invalidData ("malformed header: " ++ String.mk body)) := by
  rw [read_msg_text]
  rw [show (body ++ '\r' :: '\n' :: rest).length + 1 =
    ((body ++ '\r' :: '\n' :: rest).length) + 1 from rfl]
  rw [readHeaderLoopF_noSep hNoLF hNE hsep]

theorem read_msg_text_noCL (lines : List (List Char))
    (hall : ∀ l ∈ lines, headerLineOkB l = true)
    (hnocl : ∀ l ∈ lines, isContentLengthLineB l = false) (rest : List Char) :
    read_msg_text (lines.flatten ++ '\r' :: '\n' :: rest) =
      .error (.invalidData "no Content-Length") := by
  rw [read_msg_text]
  have hloop := readHeaderLoopF_flatten lines hall
    ((lines.flatten ++ '\r' :: '\n' :: rest).length + 1) none ('\r' :: '\n' :: rest)
    (by simp)
  rw [hloop]
  rw [foldl_lineSize_not_cl lines hnocl none]
  have hk := lines_length_le_flatten lines hall
  obtain ⟨m, hm⟩ : ∃ m,
      (lines.flatten ++ '\r' :: '\n' :: rest).length + 1 - lines.length = m + 1 :=
    ⟨(lines.flatten ++ '\r' :: '\n' :: rest).length - lines.length, by
      rw [List.length_append]
      omega⟩
  rw [hm, readHeaderLoopF_blank]

theorem read_msg_text_nil : read_msg_text [] = .ok none := rfl

theorem writtenChars_write_msg_text (t : List Char) :
    writtenChars (write_msg_text t) = contentLengthHeader (byteLen t) ++ t := by
  simp [write_msg_text, writtenChars]

/-! ### The claims -/

/-- C1 (amended): writing a message with a transcoder that fails (so no
transcoding step is in effect and the canonical JSON text is framed) and
reading the produced bytes back yields the original message, for every
well-typed message none of whose optional JSON-value fields (a response
`result`, or an error's `data`) holds an explicit JSON null.  Such a
field serializes to an explicit `null`, which deserializes as the absent
field, so the unconditional round trip of the spec fails (see the
counterexample). -/
theorem claim_C1_roundtrip (tc : Json → Except String String) (m : Message)
    (hwf : m.wfB = true) (hopt : m.noExplicitNullOpt = true)
    (htc : ∃ e, tc m.envelopeJson = .error e)
    (hlen : byteLen (Json.ser m.envelopeJson) < 18446744073709551616) :
    Message.read (writtenChars (Message.write tc m)) = .ok (some (m, [])) := by
  obtain ⟨e, he⟩ := htc
  rw [Message.write, Message._write]
  simp only [he]
  rw [writtenChars_write_msg_text]
  have hframe := read_msg_text_frame (Json.ser m.envelopeJson) [] hlen
  rw [List.append_nil] at hframe
  rw [Message.read, Message._read]
  simp only [hframe]
  rw [parseTopJson_ser]
  rw [show (some m.envelopeJson).bind Message.fromJson =
    Message.fromJson m.envelopeJson from rfl]
  rw [Message.fromJson_envelope m hwf hopt]

theorem claim_C1_roundtrip_witness :
    Message.read (writtenChars (Message.write failTranscoder
        (.notification ⟨"exit", ⟨none, none, .null⟩⟩))) =
      .ok (some (.notification ⟨"exit", ⟨none, none, .null⟩⟩, [])) :=
  claim_C1_roundtrip failTranscoder (.notification ⟨"exit", ⟨none, none, .null⟩⟩)
    (by decide) (by decide) ⟨"transcode failed", rfl⟩ (by decide)

/-- C1 counterexample: a Response whose `result` field holds the explicit
JSON null serializes (with the transcoder failing, so no transcoding step
is in effect) to the text `\x7b"jsonrpc":"2.0","id":1,"result":null\x7d`,
which reads back with `result = None`: reading back yields a Message that
is not structurally equal to the one written. -/
theorem claim_C1_counterexample :
    Message.read (writtenChars (Message.write failTranscoder
        (.response ⟨⟨.i32 1⟩, some .null, none⟩))) =
      .ok (some (.response ⟨⟨.i32 1⟩, none, none⟩, [])) ∧
    Message.response ⟨⟨.i32 1⟩, some .null, none⟩ ≠
      Message.response ⟨⟨.i32 1⟩, none, none⟩ :=
  ⟨rfl, by decide⟩

/-- C2: when the bytecode transcoder returns an error, `Message::write`
falls back to framing and writing the canonical JSON text of the
envelope: the produced write events are exactly those of a successful
`write_msg_text` of the serialized envelope, so a write never fails
solely because the transcoder failed. -/
theorem claim_C2_transcoder_fallback (tc : Json → Except String String)
    (m : Message) (e : String) (htc : tc m.envelopeJson = .error e) :
    Message.write tc m = write_msg_text (Json.ser m.envelopeJson) := by
  rw [Message.write, Message._write]
  simp only [htc]

theorem claim_C2_transcoder_fallback_witness :
    Message.write failTranscoder (.notification ⟨"exit", ⟨none, none, .null⟩⟩) =
      write_msg_text (Json.ser (Message.envelopeJson
        (.notification ⟨"exit", ⟨none, none, .null⟩⟩))) :=
  claim_C2_transcoder_fallback failTranscoder
    (.notification ⟨"exit", ⟨none, none, .null⟩⟩) "transcode failed" rfl

/-- C3 (amended): decoding a JSON value into a Message tries the variants
in the fixed order Request (requires `id`, `method`, `params`), then
Response, then Notification, accepting the first that deserializes and
failing when none does; but Response requires only a decodable `id`
(`result` and `error` are each optional, with no requirement that one be
present), and Notification requires `method` and `params` while simply
ignoring any `id` field rather than requiring its absence. -/
theorem claim_C3_decode_order :
    (∀ (v : Json) (r : Request), Request.fromJson v = some r →
      Message.fromJson v = some (.request r)) ∧
    (∀ (v : Json) (r : Response), Request.fromJson v = none →
      Response.fromJson v = some r → Message.fromJson v = some (.response r)) ∧
    (∀ (v : Json) (n : Notification), Request.fromJson v = none →
      Response.fromJson v = none → Notification.fromJson v = some n →
      Message.fromJson v = some (.notification n)) ∧
    (∀ v : Json, Request.fromJson v = none → Response.fromJson v = none →
      Notification.fromJson v = none → Message.fromJson v = none) ∧
    (∀ id : RequestId, id.idRepr.wfB = true →
      Response.fromJson (.obj [("id", id.toJson)]) = some ⟨id, none, none⟩) ∧
    (∀ m : String,
      Notification.fromJson (.obj [("id", Json.null), ("method", .str m),
        ("params", .obj [])]) = some ⟨m, ⟨none, none, .null⟩⟩) := by
  refine ⟨?_, ?_, ?_, ?_, ?_, ?_⟩
  · intro v r h
    rw [Message.fromJson, h]
  · intro v r h1 h2
    rw [Message.fromJson, h1, h2]
  · intro v n h1 h2 h3
    rw [Message.fromJson, h1, h2, h3]
    rfl
  · intro v h1 h2 h3
    rw [Message.fromJson, h1, h2, h3]
    rfl
  · intro id hid
    have hwf : Response.wfB ⟨id, none, none⟩ = true := by
      simp [Response.wfB, hid]
    have hno : Message.noExplicitNullOpt (.response ⟨id, none, none⟩) = true := by
      simp [Message.noExplicitNullOpt]
    have := response_fromJson_fields ⟨id, none, none⟩ hwf hno []
      (fun k v hm => absurd hm (List.not_mem_nil _))
    simpa using this
  · intro m
    rfl

theorem claim_C3_decode_order_witness :
    Message.fromJson (.obj [("id", Json.num 7)]) =
      some (.response ⟨⟨.i32 7⟩, none, none⟩) :=
  claim_C3_decode_order.2.1 (.obj [("id", Json.num 7)])
    ⟨⟨.i32 7⟩, none, none⟩ rfl rfl

/-- C3 counterexample: an object carrying only `id` (no `result` and no
`error`) decodes to a Response, refuting the stated requirement of
`result` or `error`; and an object carrying an `id` field (here the
undecodable `null`) together with `method` and `params` decodes to a
Notification, refuting the stated requirement of no `id`. -/
theorem claim_C3_counterexample :
    Message.fromJson (.obj [("jsonrpc", .str "2.0"), ("id", .num 1)]) =
      some (.response ⟨⟨.i32 1⟩, none, none⟩) ∧
    Message.fromJson (.obj [("id", .null), ("method", .str "m"),
        ("params", .obj [])]) =
      some (.notification ⟨"m", ⟨none, none, .null⟩⟩) :=
  ⟨rfl, rfl⟩

/-- C4: decoding a JSON object into a Context tries CompletionContext,
then ResolveContext, then CommonContext, then WorkspaceContext, in that
order, each requiring its full field set; in particular an object
containing only the `language-server-id` field decodes to CommonContext
(never to ResolveContext or CompletionContext, whose field sets it does
not satisfy). -/
theorem claim_C4_context_order :
    (∀ (j : Json) (c : CompletionContext), CompletionContext.fromJson j = some c →
      Context.fromJson j = some (.completionContext c)) ∧
    (∀ (j : Json) (c : ResolveContext), CompletionContext.fromJson j = none →
      ResolveContext.fromJson j = some c →
      Context.fromJson j = some (.resolveContext c)) ∧
    (∀ (j : Json) (c : CommonContext), CompletionContext.fromJson j = none →
      ResolveContext.fromJson j = none → CommonContext.fromJson j = some c →
      Context.fromJson j = some (.commonContext c)) ∧
    (∀ (j : Json) (c : WorkspaceContext), CompletionContext.fromJson j = none →
      ResolveContext.fromJson j = none → CommonContext.fromJson j = none →
      WorkspaceContext.fromJson j = some c →
      Context.fromJson j = some (.workspaceContext c)) ∧
    (∀ n : Nat, usizeOk n = true →
      Context.fromJson (.obj [("language-server-id", .num (n : Int))]) =
        some (.commonContext ⟨n⟩)) := by
  refine ⟨?_, ?_, ?_, ?_, ?_⟩
  · intro j c h
    exact Context.fromJson_of_completion h
  · intro j c h1 h2
    exact Context.fromJson_of_resolve h1 h2
  · intro j c h1 h2 h3
    exact Context.fromJson_of_common h1 h2 h3
  · intro j c h1 h2 h3 h4
    exact Context.fromJson_of_workspace h1 h2 h3 h4
  · intro n hn
    exact Context.fromJson_of_common
      (completionContext_fromJson_none (by simp [lookupField]))
      (ResolveContext.fromJson_none_start (by simp [lookupField]))
      (commonContext_fields_fromJson ⟨n⟩ hn)

theorem claim_C4_context_order_witness :
    Context.fromJson (.obj [("language-server-id", .num ((3 : Nat) : Int))]) =
      some (.commonContext ⟨3⟩) :=
  claim_C4_context_order.2.2.2.2 3 (by decide)

/-- C5: during a frame read, a first header line not terminated by the
exact CR LF sequence is a fatal InvalidData error; a non-empty header
line without a `": "` separator is a fatal InvalidData error; a header
block terminated by the empty line with no Content-Length header among
its (well-formed) lines is the fatal "no Content-Length" error; and end
of stream before any header bytes yields the clean `Ok(None)`, which is
distinct from every error value. -/
theorem claim_C5_framing_errors :
    (∀ s : List Char, s ≠ [] → endsWithCRLF (splitLine s).1 = false →
      read_msg_text s =
        .error (.invalidData ("malformed header: " ++ String.mk (splitLine s).1))) ∧
    (∀ body rest : List Char, ¬ '\n' ∈ body → body ≠ [] → splitSep body = none →
      read_msg_text (body ++ '\r' :: '\n' :: rest) =
        .error (.invalidData ("malformed header: " ++ String.mk body))) ∧
    (∀ (lines : List (List Char)) (rest : List Char),
      (∀ l ∈ lines, headerLineOkB l = true) →
      (∀ l ∈ lines, isContentLengthLineB l = false) →
      read_msg_text (lines.flatten ++ '\r' :: '\n' :: rest) =
        .error (.invalidData "no Content-Length")) ∧
    read_msg_text [] = .ok none ∧
    (∀ e : IoError,
      (.error e : Except IoError (Option (List Char × List Char))) ≠ .ok none) := by
  refine ⟨?_, ?_, ?_, read_msg_text_nil, ?_⟩
  · intro s h1 h2
    exact read_msg_text_badCRLF h1 h2
  · intro body rest h1 h2 h3
    exact read_msg_text_noSep h1 h2 h3 rest
  · intro lines rest h1 h2
    exact read_msg_text_noCL lines h1 h2 rest
  · intro e h
    exact Except.noConfusion h

theorem claim_C5_framing_errors_witness :
    read_msg_text (['x'] ++ '\r' :: '\n' :: []) =
      .error (.invalidData ("malformed header: " ++ String.mk ['x'])) :=
  claim_C5_framing_errors.2.1 ['x'] [] (by decide) (by decide) rfl

/-- C6: framing a payload of byte length N writes exactly the header
bytes `Content-Length: N CR LF CR LF`, then exactly the payload bytes,
then flushes the sink; and on the read side a declared Content-Length of
N makes the reader consume exactly the N payload bytes and no more,
whatever stream content trails them. -/
theorem claim_C6_framing (msg trailing : List Char)
    (h : byteLen msg < 18446744073709551616) :
    write_msg_text msg =
      [.chunk (contentLengthHeader (byteLen msg)), .chunk msg, .flush] ∧
    read_msg_text (contentLengthHeader (byteLen msg) ++ msg ++ trailing) =
      .ok (some (msg, trailing)) ∧
    takeBytes (byteLen msg) (msg ++ trailing) = .ok (msg, trailing) :=
  ⟨rfl, read_msg_text_frame msg trailing h, takeBytes_exact msg trailing⟩

theorem claim_C6_framing_witness :
    write_msg_text "ok".data =
      [.chunk (contentLengthHeader (byteLen "ok".data)), .chunk "ok".data, .flush] ∧
    read_msg_text (contentLengthHeader (byteLen "ok".data) ++ "ok".data ++ "XY".data) =
      .ok (some ("ok".data, "XY".data)) ∧
    takeBytes (byteLen "ok".data) ("ok".data ++ "XY".data) =
      .ok ("ok".data, "XY".data) :=
  claim_C6_framing "ok".data "XY".data (by decide)

/-- C7: a Response built by `new_ok` serializes with the wire fields
`jsonrpc`, `id`, `result` and no `error` key; one built by `new_err`
serializes with `jsonrpc`, `id`, `error` and no `result` key: the absent
optional field is omitted from the envelope entirely, not emitted as
null. -/
theorem claim_C7_response_fields (id : RequestId) (r : Json) (code : Int)
    (message : String) :
    (Message.response (Response.new_ok id r)).envelopeJson.topKeys =
      ["jsonrpc", "id", "result"] ∧
    (Message.response (Response.new_err id code message)).envelopeJson.topKeys =
      ["jsonrpc", "id", "error"] :=
  ⟨rfl, rfl⟩

theorem claim_C7_response_fields_witness :
    (Message.response (Response.new_ok ⟨.i32 1⟩ (.str "v"))).envelopeJson.topKeys =
      ["jsonrpc", "id", "result"] ∧
    (Message.response (Response.new_err ⟨.i32 1⟩ (-32600) "bad")).envelopeJson.topKeys =
      ["jsonrpc", "id", "error"] :=
  claim_C7_response_fields ⟨.i32 1⟩ (.str "v") (-32600) "bad"

/-- C8: for every Request (and Notification) and expected method name,
`extract` returns MethodMismatch carrying the original value back
unchanged when the method differs; when the method matches but the inner
params payload fails to decode it returns JsonError carrying the method
name and the decode error; and otherwise it returns the decoded payload
(paired with the identifier, for a Request). -/
theorem claim_C8_extract {π : Type} (dec : Json → Except String π)
    (m : String) (r : Request) (n : Notification) :
    (r.method ≠ m → Request.extract dec m r = .error (.methodMismatch r)) ∧
    (∀ e, r.method = m → dec r.params.params = .error e →
      Request.extract dec m r = .error (.jsonError r.method e)) ∧
    (∀ p, r.method = m → dec r.params.params = .ok p →
      Request.extract dec m r = .ok (r.id, p)) ∧
    (n.method ≠ m → Notification.extract dec m n = .error (.methodMismatch n)) ∧
    (∀ e, n.method = m → dec n.params.params = .error e →
      Notification.extract dec m n = .error (.jsonError n.method e)) ∧
    (∀ p, n.method = m → dec n.params.params = .ok p →
      Notification.extract dec m n = .ok p) := by
  refine ⟨?_, ?_, ?_, ?_, ?_, ?_⟩
  · intro h
    rw [Request.extract, if_pos h]
  · intro e heq hdec
    rw [Request.extract, if_neg (fun hne => hne heq)]
    simp only [hdec]
  · intro p heq hdec
    rw [Request.extract, if_neg (fun hne => hne heq)]
    simp only [hdec]
  · intro h
    rw [Notification.extract, if_pos h]
  · intro e heq hdec
    rw [Notification.extract, if_neg (fun hne => hne heq)]
    simp only [hdec]
  · intro p heq hdec
    rw [Notification.extract, if_neg (fun hne => hne heq)]
    simp only [hdec]

theorem claim_C8_extract_witness :
    Request.extract (fun _ => (.error "e" : Except String Int)) "a"
        ⟨⟨.i32 1⟩, "b", ⟨none, none, .null⟩⟩ =
      .error (.methodMismatch ⟨⟨.i32 1⟩, "b", ⟨none, none, .null⟩⟩) :=
  (claim_C8_extract (fun _ => (.error "e" : Except String Int)) "a"
    ⟨⟨.i32 1⟩, "b", ⟨none, none, .null⟩⟩
    ⟨"b", ⟨none, none, .null⟩⟩).1 (by decide)

/-- C9: converting an identifier back to an integer succeeds exactly when
it was constructed from an integer and returns the original value; the
conversion of a string-backed identifier is the panicking branch of the
source, modelled as `none`, so under the precondition that the identifier
is integer-backed that branch is unreachable. -/
theorem claim_C9_id_conversion :
    (∀ n : Int, RequestId.toI32? (RequestId.fromI32 n) = some n) ∧
    (∀ s : String, RequestId.toI32? (RequestId.fromString s) = none) ∧
    (∀ id : RequestId, (∃ n : Int, id = RequestId.fromI32 n) ↔
      (RequestId.toI32? id).isSome = true) := by
  refine ⟨fun n => rfl, fun s => rfl, fun id => ⟨?_, ?_⟩⟩
  · rintro ⟨n, rfl⟩
    rfl
  · intro h
    cases id with
    | mk repr =>
        cases repr with
        | i32 n => exact ⟨n, rfl⟩
        | string s => simp [RequestId.toI32?] at h

theorem claim_C9_id_conversion_witness :
    RequestId.toI32? (RequestId.fromI32 5) = some 5 :=
  claim_C9_id_conversion.1 5

/-- C10: when end of stream is reached at a header-line boundary after
one or more complete well-formed header lines but before the blank line
terminating the header block, the frame read returns the clean
end-of-stream signal `Ok(None)`, not an error. -/
theorem claim_C10_eof_mid_headers (lines : List (List Char))
    (_hne : lines ≠ [])
    (hall : ∀ l ∈ lines, headerLineOkB l = true) :
    read_msg_text lines.flatten = .ok none :=
  read_msg_text_eof_lines lines hall

theorem claim_C10_eof_mid_headers_witness :
    read_msg_text (List.flatten ["Content-Length: 52\r\n".data]) = .ok none :=
  claim_C10_eof_mid_headers ["Content-Length: 52\r\n".data] (by decide) (by decide)
